import Mathlib

/-!
Verification development for the core analyzers of the pagespeed front end:
the permissive JavaScript lexer (`js_lexer.cc`) and the resource tag scanner
(`resource_tag_scanner.cc`).  Bytes are modelled as `Nat` (values 0..255 in
practice), buffers as `List Nat`, and the per-scan lexer state as an explicit
record threaded through every operation.
-/

set_option linter.unusedVariables false
set_option linter.unusedTactic false
set_option linter.unreachableTactic false

namespace JsLexerModel

/-- Token kinds produced by the lexer (`JsKeywords::Type` in the source;
all concrete keyword types are collapsed into `kKeyword` since the keyword
table itself is external to the excerpt). -/
inductive TokenType where
  | kComment
  | kWhitespace
  | kLineSeparator
  | kRegex
  | kStringLiteral
  | kNumber
  | kOperator
  | kIdentifier
  | kKeyword
  | kEndOfInput
deriving DecidableEq

/-- The mutable per-scan fields of `JsLexer`, together with the bound input
buffer: `input_`, `index_`, `error_`, `last_token_may_end_value_`,
`prev_char_`, `token_start_`, `backslash_mode_`, `within_brackets_`,
`token_start_index_`, `seen_a_dot_`. -/
structure LexState where
  input : List Nat
  index : Nat
  error : Bool
  lastTokenMayEndValue : Bool
  prevChar : Nat
  tokenStart : Nat
  backslashMode : Bool
  withinBrackets : Bool
  tokenStartIndex : Int
  seenADot : Bool
deriving DecidableEq

/-- A lexical predicate: takes the state, the current byte and the
index-within-token, returns whether to keep consuming plus the updated state
(the C++ predicates are member functions mutating lexer fields). -/
abbrev LexPred := LexState → Nat → Nat → Bool × LexState

/-- The keyword table (`JsKeywords::Lookup`), external to the excerpt:
`none` means not a keyword, `some b` means a keyword whose `kIsValue` flag
is `b`. -/
abbrev KeywordLookup := List Nat → Option Bool

/-- The byte of the input buffer at a position (0 past the end); the C++
code indexes the `StringPiece` directly. -/
def byteAt (l : List Nat) (n : Nat) : Nat := l.getD n 0

/-- `JsLexer::IsSpace`: `strchr(" \t\f", ch)` — the byte is one of space,
tab, formfeed, or NUL (`strchr` also matches the string's terminating NUL
byte). -/
def IsSpace (s : LexState) (ch : Nat) (i : Nat) : Bool × LexState :=
  (decide (ch = 32 ∨ ch = 9 ∨ ch = 12 ∨ ch = 0), s)

/-- `JsLexer::IsLineSeparator`: `strchr("\n\r", ch)` — the byte is one of
newline, carriage return, or NUL (`strchr` also matches the string's
terminating NUL byte). -/
def IsLineSeparator (s : LexState) (ch : Nat) (i : Nat) : Bool × LexState :=
  (decide (ch = 10 ∨ ch = 13 ∨ ch = 0), s)

/-- `JsLexer::IsNumber`: digits and at most one decimal point
(`seen_a_dot_` blocks any second dot). -/
def IsNumber (s : LexState) (ch : Nat) (i : Nat) : Bool × LexState :=
  if ch = 46 then
    if s.seenADot then (false, s)
    else (true, { s with seenADot := true })
  else (decide (48 ≤ ch ∧ ch ≤ 57), s)

/-- `JsLexer::InBlockComment`: continue until the two-byte terminator
`*/` (previous byte `*`, current byte `/`). -/
def InBlockComment (s : LexState) (ch : Nat) (i : Nat) : Bool × LexState :=
  (!(decide (s.prevChar = 42 ∧ ch = 47)), s)

/-- `JsLexer::InSingleLineComment`: continue until a line separator. -/
def InSingleLineComment (s : LexState) (ch : Nat) (i : Nat) : Bool × LexState :=
  (!(decide (ch = 10 ∨ ch = 13)), s)

/-- `JsLexer::ProcessBackslash`: a backslash escapes the next byte
unconditionally, tracked by `backslash_mode_`. -/
def ProcessBackslash (s : LexState) (ch : Nat) : Bool × LexState :=
  if s.backslashMode then (true, { s with backslashMode := false })
  else if ch = 92 then (true, { s with backslashMode := true })
  else (false, s)

/-- `JsLexer::IdentifierStart`: letters, `_`, `$`, bytes at or above 127,
or a backslash-escape byte pair. -/
def IdentifierStart (s : LexState) (ch : Nat) : Bool × LexState :=
  let r := ProcessBackslash s ch
  if r.1 then (true, r.2)
  else
    (decide ((97 ≤ ch ∧ ch ≤ 122) ∨ (65 ≤ ch ∧ ch ≤ 90) ∨ ch = 95 ∨ ch = 36 ∨
      127 ≤ ch), r.2)

/-- `JsLexer::InIdentifier`: identifier-start bytes or digits. -/
def InIdentifier (s : LexState) (ch : Nat) (i : Nat) : Bool × LexState :=
  let r := IdentifierStart s ch
  (r.1 || decide (48 ≤ ch ∧ ch ≤ 57), r.2)

/-- `JsLexer::InOperator`: merges `++`, `--`, `+=`, `-=`, `*=`, `/=` into a
two-byte token; otherwise stops, recording in `last_token_may_end_value_`
the result of `strchr(")]}", ch)` — whether the byte under scan is one of
`)`, `]`, `}`, or NUL (`strchr` also matches the string's terminating NUL
byte). -/
def InOperator (s : LexState) (ch : Nat) (i : Nat) : Bool × LexState :=
  if ((s.tokenStart = 43 ∨ s.tokenStart = 45) ∧ ch = s.tokenStart) ∨
      (ch = 61 ∧ (s.tokenStart = 43 ∨ s.tokenStart = 45 ∨ s.tokenStart = 47 ∨
        s.tokenStart = 42)) then
    (true, { s with tokenStart := 0 })
  else
    (false, { s with lastTokenMayEndValue := decide (ch = 41 ∨ ch = 93 ∨
      ch = 125 ∨ ch = 0) })

/-- `JsLexer::InString`: continue through backslash escapes until the opening
quote byte (saved in `token_start_`) recurs. -/
def InString (s : LexState) (ch : Nat) (i : Nat) : Bool × LexState :=
  let r := ProcessBackslash s ch
  if r.1 then (true, r.2)
  else (!(decide (r.2.tokenStart = ch)), r.2)

/-- `JsLexer::InRegex`: continue through backslash escapes; an unbracketed `/`
terminates; `[` and `]` toggle the single non-nesting bracket flag; an
unescaped newline sets the error flag and aborts. -/
def InRegex (s : LexState) (ch : Nat) (i : Nat) : Bool × LexState :=
  let r := ProcessBackslash s ch
  if r.1 then (true, r.2)
  else if ch = 47 then
    if !r.2.withinBrackets then (false, r.2) else (true, r.2)
  else if ch = 91 then (true, { r.2 with withinBrackets := true })
  else if ch = 93 then (true, { r.2 with withinBrackets := false })
  else if ch = 10 then (false, { r.2 with error := true })
  else (true, r.2)

/-- The scan loop inside `JsLexer::Consume`, with explicit fuel (the caller
passes `input.length - p`, which matches the C++ loop exactly since `p`
advances by one per iteration and the loop stops at the end pointer). -/
def consumeLoopAux (pred : LexPred) (input : List Nat) :
    Nat → LexState → Nat → Nat → LexState × Nat
  | 0, s, p, _ => (s, p)
  | fuel + 1, s, p, i =>
    if p < input.length then
      let ch := byteAt input p
      let r := pred s ch i
      if r.1 then consumeLoopAux pred input fuel { r.2 with prevChar := ch } (p + 1) (i + 1)
      else (r.2, p)
    else (s, p)

/-- The scan loop of `JsLexer::Consume` from position `p` (index-within-token
`i`), returning the final state and the stop position. -/
def consumeLoop (pred : LexPred) (input : List Nat) (s : LexState) (p i : Nat) :
    LexState × Nat :=
  consumeLoopAux pred input (input.length - p) s p i

/-- `JsLexer::Consume`: scan from the second byte of the token while the
predicate holds, tracking `prev_char_`; if the scan hits end-of-input the
token is still emitted but the error flag is set unless
`ok_to_terminate_with_eof`; otherwise `include_last_char` extends the token
over the terminating byte.  Returns the new state and the token span
`(start, size)`. -/
def Consume (pred : LexPred) (includeLastChar okToTerminateWithEof : Bool)
    (s : LexState) : LexState × (Nat × Nat) :=
  let input := s.input
  let start := s.index
  let s0 : LexState := { s with prevChar := byteAt input start }
  let r := consumeLoop pred input s0 (start + 1) 1
  if r.2 = input.length then
    ({ r.1 with error := r.1.error || !okToTerminateWithEof,
                index := r.1.index + (r.2 - start) }, (start, r.2 - start))
  else
    let size := if includeLastChar then (r.2 - start) + 1 else r.2 - start
    ({ r.1 with index := r.1.index + size }, (start, size))

/-- The bytes of a token span `(start, size)` inside `input`. -/
def tokenBytes (input : List Nat) (tok : Nat × Nat) : List Nat :=
  (input.drop tok.1).take tok.2

/-- `JsLexer::IdentifierOrKeyword`: look the spelling up in the keyword
table; unknown identifiers mark "may end a value" true, keywords inherit
their per-keyword is-value flag. -/
def IdentifierOrKeyword (lookup : KeywordLookup) (name : List Nat)
    (s : LexState) : TokenType × LexState :=
  match lookup name with
  | none => (TokenType.kIdentifier, { s with lastTokenMayEndValue := true })
  | some isValue => (TokenType.kKeyword, { s with lastTokenMayEndValue := isValue })

/-- `JsLexer::NumberOrDot`: a lone `.` is an operator (not ending a value);
anything else consumed by the number predicate is a number token. -/
def NumberOrDot (numberOrDot : List Nat) (s : LexState) : TokenType × LexState :=
  if numberOrDot = [46] then
    (TokenType.kOperator, { s with lastTokenMayEndValue := false })
  else (TokenType.kNumber, { s with lastTokenMayEndValue := true })

/-- The shared tail of `JsLexer::ConsumeSlash`: consume as an operator and
reset the may-end-value flag. -/
def slashOperatorTail (s : LexState) : (TokenType × (Nat × Nat)) × LexState :=
  let r := Consume InOperator false true s
  ((TokenType.kOperator, r.2), { r.1 with lastTokenMayEndValue := false })

/-- `JsLexer::ConsumeSlash`: when a next byte exists, `//` starts a line
comment and `/*` a block comment; otherwise the previous token's
may-end-value flag picks division (operator) versus a regex literal.  A `/`
that is the last byte of the buffer is always an operator. -/
def ConsumeSlash (s : LexState) : (TokenType × (Nat × Nat)) × LexState :=
  if s.index + 1 < s.input.length then
    let next := byteAt s.input (s.index + 1)
    if next = 47 then
      let r := Consume InSingleLineComment false true s
      ((TokenType.kComment, r.2), r.1)
    else if next = 42 then
      let r := Consume InBlockComment true false s
      ((TokenType.kComment, r.2), r.1)
    else if s.lastTokenMayEndValue then
      slashOperatorTail { s with lastTokenMayEndValue := false }
    else
      let r := Consume InRegex true false { s with withinBrackets := false }
      ((TokenType.kRegex, r.2), r.1)
  else slashOperatorTail s

/-- `JsLexer::NextToken`: returns end-of-input immediately once the sticky
error flag is set or the buffer is exhausted; otherwise dispatch on the first
byte and run the matching consume.  The token is reported as its kind plus
the byte span `(start, size)`. -/
def NextToken (lookup : KeywordLookup) (s0 : LexState) :
    (TokenType × (Nat × Nat)) × LexState :=
  if s0.error ∨ s0.input.length ≤ s0.index then
    ((TokenType.kEndOfInput, (s0.index, 0)), s0)
  else
    let ch := byteAt s0.input s0.index
    let s : LexState := { s0 with tokenStart := ch, tokenStartIndex := (s0.index : Int) }
    if (IsSpace s ch 0).1 then
      let r := Consume IsSpace false true s
      ((TokenType.kWhitespace, r.2), r.1)
    else if (IsLineSeparator s ch 0).1 then
      let r := Consume IsLineSeparator false true s
      ((TokenType.kLineSeparator, r.2), r.1)
    else if (IsNumber s ch 0).1 then
      let s2 : LexState := { (IsNumber s ch 0).2 with seenADot := decide (ch = 46) }
      let r := Consume IsNumber false true s2
      let s4 : LexState := { r.1 with seenADot := false }
      let nd := NumberOrDot (tokenBytes s4.input r.2) s4
      ((nd.1, r.2), nd.2)
    else
      let sN := (IsNumber s ch 0).2
      if ch = 47 then ConsumeSlash sN
      else if ch = 34 ∨ ch = 39 then
        let sq : LexState := { sN with tokenStart := ch }
        let r := Consume InString true false sq
        ((TokenType.kStringLiteral, r.2), { r.1 with lastTokenMayEndValue := true })
      else
        let idp := IdentifierStart sN ch
        if idp.1 then
          let r := Consume InIdentifier false true idp.2
          let ik := IdentifierOrKeyword lookup (tokenBytes r.1.input r.2) r.1
          ((ik.1, r.2), ik.2)
        else if (idp.2.input.drop idp.2.index).take 4 = [60, 33, 45, 45] then
          let r := Consume InSingleLineComment false true idp.2
          ((TokenType.kComment, r.2), r.1)
        else
          let so : LexState := { idp.2 with tokenStart := ch }
          let r := Consume InOperator false true so
          ((TokenType.kOperator, r.2), r.1)

/-- `JsLexer::Lex`: bind a new input buffer and reset every per-scan field. -/
def Lex (input : List Nat) (s : LexState) : LexState :=
  { input := input
    index := 0
    error := false
    lastTokenMayEndValue := false
    prevChar := 0
    tokenStart := 0
    backslashMode := false
    withinBrackets := false
    tokenStartIndex := -1
    seenADot := false }

/-- A throwaway state used to build a fresh lexer. -/
def emptyState : LexState :=
  { input := []
    index := 0
    error := false
    lastTokenMayEndValue := false
    prevChar := 0
    tokenStart := 0
    backslashMode := false
    withinBrackets := false
    tokenStartIndex := -1
    seenADot := false }

/-- Call `NextToken` repeatedly (bounded by `fuel`), collecting the emitted
tokens until the end-of-input marker, and return them with the final state. -/
def runLexer (lookup : KeywordLookup) :
    Nat → LexState → List (TokenType × (Nat × Nat)) × LexState
  | 0, s => ([], s)
  | fuel + 1, s =>
    let r := NextToken lookup s
    if r.1.1 = TokenType.kEndOfInput then ([], r.2)
    else
      let rest := runLexer lookup fuel r.2
      (r.1 :: rest.1, rest.2)

/-- Concatenate the byte spans of a token list, in emission order. -/
def joinSpans (input : List Nat) (toks : List (TokenType × (Nat × Nat))) : List Nat :=
  toks.foldr (fun t acc => tokenBytes input t.2 ++ acc) []

/-- A keyword table with no keywords at all (every spelling is an
identifier); used for concrete evaluations. -/
def lookup0 : KeywordLookup := fun _ => none

end JsLexerModel

namespace ResourceTagScannerModel

/-- The byte string of an ASCII literal. -/
def bytes (s : String) : List Nat := s.data.map Char.toNat

/-- ASCII lowercasing of one byte. -/
def lowerByte (c : Nat) : Nat := if 65 ≤ c ∧ c ≤ 90 then c + 32 else c

/-- `StringCaseEqual`: ASCII case-insensitive equality of byte strings. -/
def StringCaseEqual (a b : List Nat) : Bool :=
  a.map lowerByte = b.map lowerByte

/-- `semantic_type::Category`. -/
inductive Category where
  | kHyperlink
  | kScript
  | kImage
  | kStylesheet
  | kPrefetch
  | kOtherResource
  | kUndefined
deriving DecidableEq

/-- An HTML attribute as the scanner consumes it (external `HtmlElement::
Attribute`): a name, a decoded value (`none` models `DecodedValueOrNull`
returning null), and the decoding-error flag. -/
structure Attribute where
  name : List Nat
  decodedValue : Option (List Nat)
  decodingError : Bool
deriving DecidableEq

/-- The tag keywords the built-in classification switches on
(`HtmlName::Keyword`); every other tag is `kOther` (the `default` case). -/
inductive TagKeyword where
  | kLink
  | kScript
  | kImg
  | kBody
  | kTd
  | kTh
  | kTable
  | kTbody
  | kTfoot
  | kThead
  | kInput
  | kCommand
  | kA
  | kArea
  | kForm
  | kAudio
  | kVideo
  | kSource
  | kTrack
  | kEmbed
  | kFrame
  | kIframe
  | kHtml
  | kBlockquote
  | kQ
  | kIns
  | kDel
  | kButton
  | kOther
deriving DecidableEq

/-- An HTML element as the scanner consumes it (external `HtmlElement`):
its tag keyword, its literal tag name (`name_str`), and its attributes in
declaration order. -/
structure HtmlElement where
  keyword : TagKeyword
  nameStr : List Nat
  attributes : List Attribute
deriving DecidableEq

/-- One custom attribute rule from `RewriteOptions::UrlValuedAttribute`
(external configuration): element name, attribute name, category. -/
structure CustomAttributeRule where
  element : List Nat
  attributeName : List Nat
  category : Category
deriving DecidableEq

/-- Modelled from the spec: `HtmlElement::FindAttribute` is outside the
excerpt; per the data model an element holds an ordered attribute list and
lookup returns the attribute with the given (case-insensitive) name. -/
def FindAttribute (e : HtmlElement) (name : List Nat) : Option Attribute :=
  e.attributes.find? fun a => StringCaseEqual a.name name

/-- Modelled from the spec: `HtmlElement::AttributeValue` is outside the
excerpt; it is the decoded value of the named attribute, or null. -/
def AttributeValue (e : HtmlElement) (name : List Nat) : Option (List Nat) :=
  (FindAttribute e name).bind fun a => a.decodedValue

/-- `IsAttributeInvalid`: the attribute is missing or carries a decoding
error. -/
def IsAttributeInvalid (attr : Option Attribute) : Bool :=
  match attr with
  | none => true
  | some a => a.decodingError

/-- Modelled from the spec: `SplitStringPieceToVector(value, " ", ...,
true)` is outside the excerpt; it splits on spaces, skipping empty tokens. -/
def SplitSkipEmpty (l : List Nat) : List (List Nat) :=
  (l.splitOn 32).filter fun t => t ≠ []

/-- A token of a link `rel` value that selects the image category:
`icon`, `apple-touch-icon`, `apple-touch-icon-precomposed`,
`apple-touch-startup-image` (case-insensitive). -/
def isIconToken (v : List Nat) : Bool :=
  StringCaseEqual v (bytes "icon") ||
  StringCaseEqual v (bytes "apple-touch-icon") ||
  StringCaseEqual v (bytes "apple-touch-icon-precomposed") ||
  StringCaseEqual v (bytes "apple-touch-startup-image")

/-- A token of a link `rel` value that selects the prefetch category:
`prefetch` or `dns-prefetch` (case-insensitive). -/
def isPrefetchToken (v : List Nat) : Bool :=
  StringCaseEqual v (bytes "prefetch") || StringCaseEqual v (bytes "dns-prefetch")

/-- The `rel`-token loop of `ScanElement`: an icon token sets the category
to image and breaks; a prefetch token sets it to prefetch and keeps
scanning; any other token is ignored. -/
def relScan : List (List Nat) → Category → Category
  | [], c => c
  | v :: rest, c =>
    if isIconToken v then Category.kImage
    else if isPrefetchToken v then relScan rest Category.kPrefetch
    else relScan rest c

/-- Modelled from the spec: `CssTagScanner::IsStylesheetOrAlternate` is
outside the excerpt; per the spec the category becomes stylesheet if any
space-separated token of the decoded `rel` value is `stylesheet`
(the alternate-stylesheet marker `alternate stylesheet` contains it). -/
def IsStylesheetOrAlternate (v : Option (List Nat)) : Bool :=
  (SplitSkipEmpty (v.getD [])).any fun t => StringCaseEqual t (bytes "stylesheet")

/-- The built-in classification switch of `ScanElement` (the `switch
(keyword)` block): picks the tag-specific attribute and category. -/
def builtinScan (e : HtmlElement) : Option Attribute × Category :=
  match e.keyword with
  | TagKeyword.kLink =>
    let attr := FindAttribute e (bytes "href")
    let cat :=
      match FindAttribute e (bytes "rel") with
      | none => Category.kHyperlink
      | some relAttr =>
        if IsStylesheetOrAlternate relAttr.decodedValue then Category.kStylesheet
        else relScan (SplitSkipEmpty (relAttr.decodedValue.getD [])) Category.kHyperlink
    (attr, cat)
  | TagKeyword.kScript => (FindAttribute e (bytes "src"), Category.kScript)
  | TagKeyword.kImg => (FindAttribute e (bytes "src"), Category.kImage)
  | TagKeyword.kBody => (FindAttribute e (bytes "background"), Category.kImage)
  | TagKeyword.kTd => (FindAttribute e (bytes "background"), Category.kImage)
  | TagKeyword.kTh => (FindAttribute e (bytes "background"), Category.kImage)
  | TagKeyword.kTable => (FindAttribute e (bytes "background"), Category.kImage)
  | TagKeyword.kTbody => (FindAttribute e (bytes "background"), Category.kImage)
  | TagKeyword.kTfoot => (FindAttribute e (bytes "background"), Category.kImage)
  | TagKeyword.kThead => (FindAttribute e (bytes "background"), Category.kImage)
  | TagKeyword.kInput =>
    if StringCaseEqual ((AttributeValue e (bytes "type")).getD []) (bytes "image") then
      (FindAttribute e (bytes "src"), Category.kImage)
    else (none, Category.kUndefined)
  | TagKeyword.kCommand => (FindAttribute e (bytes "icon"), Category.kImage)
  | TagKeyword.kA => (FindAttribute e (bytes "href"), Category.kHyperlink)
  | TagKeyword.kArea => (FindAttribute e (bytes "href"), Category.kHyperlink)
  | TagKeyword.kForm => (FindAttribute e (bytes "action"), Category.kHyperlink)
  | TagKeyword.kAudio => (FindAttribute e (bytes "src"), Category.kOtherResource)
  | TagKeyword.kVideo => (FindAttribute e (bytes "src"), Category.kOtherResource)
  | TagKeyword.kSource => (FindAttribute e (bytes "src"), Category.kOtherResource)
  | TagKeyword.kTrack => (FindAttribute e (bytes "src"), Category.kOtherResource)
  | TagKeyword.kEmbed => (FindAttribute e (bytes "src"), Category.kOtherResource)
  | TagKeyword.kFrame => (FindAttribute e (bytes "src"), Category.kOtherResource)
  | TagKeyword.kIframe => (FindAttribute e (bytes "src"), Category.kOtherResource)
  | TagKeyword.kHtml => (FindAttribute e (bytes "manifest"), Category.kOtherResource)
  | TagKeyword.kBlockquote => (FindAttribute e (bytes "cite"), Category.kHyperlink)
  | TagKeyword.kQ => (FindAttribute e (bytes "cite"), Category.kHyperlink)
  | TagKeyword.kIns => (FindAttribute e (bytes "cite"), Category.kHyperlink)
  | TagKeyword.kDel => (FindAttribute e (bytes "cite"), Category.kHyperlink)
  | TagKeyword.kButton => (FindAttribute e (bytes "formaction"), Category.kHyperlink)
  | TagKeyword.kOther => (none, Category.kUndefined)

/-- The inner attribute loop of the fallback scan: for one rule whose
element name matched, find the first attribute (in declaration order) whose
name matches case-insensitively and has no decoding error. -/
def ruleFires (e : HtmlElement) (r : CustomAttributeRule) : Option Attribute :=
  if StringCaseEqual e.nameStr r.element then
    e.attributes.find? fun a => StringCaseEqual a.name r.attributeName && !a.decodingError
  else none

/-- The fallback custom-rule loop of `ScanElement`: iterate the rule list
in order; the first rule that fires returns its matched attribute and the
rule's category (the C++ `return attribute_j` ends the whole scan). -/
def fallbackScan (e : HtmlElement) (rules : List CustomAttributeRule) :
    Option (Attribute × Category) :=
  rules.findSome? fun r => (ruleFires e r).map fun a => (a, r.category)

/-- `resource_tag_scanner::ScanElement`: built-in classification, then the
fallback custom-rule scan when the built-in attribute is invalid (an early
return that bypasses the final gate), then the final validity gate.  The
driver is `none` when no rule configuration is supplied (`driver == NULL`). -/
def ScanElement (e : HtmlElement) (driver : Option (List CustomAttributeRule)) :
    Option Attribute × Category :=
  if e.attributes.isEmpty then (none, Category.kUndefined)
  else
    let b := builtinScan e
    let fb : Option (Attribute × Category) :=
      if IsAttributeInvalid b.1 then
        match driver with
        | some rules => fallbackScan e rules
        | none => none
      else none
    match fb with
    | some ac => (some ac.1, ac.2)
    | none =>
      if IsAttributeInvalid b.1 ∨ b.2 = Category.kUndefined then
        (none, Category.kUndefined)
      else (b.1, b.2)

end ResourceTagScannerModel

namespace JsLexerModel

/-- A lexical predicate is well-behaved when it never touches the input
buffer or the scan index (true of all eight predicates of `JsLexer`). -/
def PredOk (pred : LexPred) : Prop :=
  ∀ s ch i, ((pred s ch i).2).index = s.index ∧ ((pred s ch i).2).input = s.input

lemma predOk_IsSpace : PredOk IsSpace := fun _ _ _ => ⟨rfl, rfl⟩

lemma predOk_IsLineSeparator : PredOk IsLineSeparator := fun _ _ _ => ⟨rfl, rfl⟩

lemma predOk_IsNumber : PredOk IsNumber := by
  intro s ch i
  simp only [IsNumber]
  split
  · split <;> exact ⟨rfl, rfl⟩
  · exact ⟨rfl, rfl⟩

lemma predOk_InBlockComment : PredOk InBlockComment := fun _ _ _ => ⟨rfl, rfl⟩

lemma predOk_InSingleLineComment : PredOk InSingleLineComment := fun _ _ _ => ⟨rfl, rfl⟩

lemma processBackslash_ok (s : LexState) (ch : Nat) :
    ((ProcessBackslash s ch).2).index = s.index ∧
    ((ProcessBackslash s ch).2).input = s.input := by
  simp only [ProcessBackslash]
  split
  · exact ⟨rfl, rfl⟩
  · split <;> exact ⟨rfl, rfl⟩

lemma identifierStart_ok (s : LexState) (ch : Nat) :
    ((IdentifierStart s ch).2).index = s.index ∧
    ((IdentifierStart s ch).2).input = s.input := by
  simp only [IdentifierStart]
  split <;> exact processBackslash_ok s ch

lemma predOk_InIdentifier : PredOk InIdentifier := by
  intro s ch i
  simp only [InIdentifier]
  exact identifierStart_ok s ch

lemma predOk_InOperator : PredOk InOperator := by
  intro s ch i
  simp only [InOperator]
  split <;> exact ⟨rfl, rfl⟩

lemma predOk_InString : PredOk InString := by
  intro s ch i
  simp only [InString]
  split <;> exact processBackslash_ok s ch

lemma predOk_InRegex : PredOk InRegex := by
  intro s ch i
  simp only [InRegex]
  split
  · exact processBackslash_ok s ch
  · split
    · split <;> exact processBackslash_ok s ch
    · split
      · exact ⟨(processBackslash_ok s ch).1, (processBackslash_ok s ch).2⟩
      · split
        · exact ⟨(processBackslash_ok s ch).1, (processBackslash_ok s ch).2⟩
        · split <;>
            exact ⟨(processBackslash_ok s ch).1, (processBackslash_ok s ch).2⟩

lemma consumeLoopAux_ok (pred : LexPred) (hp : PredOk pred) (input : List Nat) :
    ∀ fuel s p i,
      ((consumeLoopAux pred input fuel s p i).1).index = s.index ∧
      ((consumeLoopAux pred input fuel s p i).1).input = s.input ∧
      p ≤ (consumeLoopAux pred input fuel s p i).2 ∧
      (p ≤ input.length → (consumeLoopAux pred input fuel s p i).2 ≤ input.length) := by
  intro fuel
  induction fuel with
  | zero =>
    intro s p i
    exact ⟨rfl, rfl, le_refl p, fun h => h⟩
  | succ n ih =>
    intro s p i
    simp only [consumeLoopAux]
    split
    · rename_i hlt
      split
      · rename_i hgo
        have h := ih { (pred s (byteAt input p) i).2 with prevChar := byteAt input p }
          (p + 1) (i + 1)
        refine ⟨?_, ?_, ?_, ?_⟩
        · rw [h.1]; exact (hp s (byteAt input p) i).1
        · rw [h.2.1]; exact (hp s (byteAt input p) i).2
        · exact le_trans (Nat.le_succ p) h.2.2.1
        · intro _; exact h.2.2.2 hlt
      · exact ⟨(hp s (byteAt input p) i).1, (hp s (byteAt input p) i).2,
          le_refl p, fun h => h⟩
    · exact ⟨rfl, rfl, le_refl p, fun h => h⟩

lemma Consume_ok (pred : LexPred) (hp : PredOk pred) (il ok : Bool) (s : LexState)
    (h : s.index < s.input.length) :
    (Consume pred il ok s).2.1 = s.index ∧
    1 ≤ (Consume pred il ok s).2.2 ∧
    ((Consume pred il ok s).1).index = s.index + (Consume pred il ok s).2.2 ∧
    s.index + (Consume pred il ok s).2.2 ≤ s.input.length ∧
    ((Consume pred il ok s).1).input = s.input := by
  have hc := consumeLoopAux_ok pred hp s.input (s.input.length - (s.index + 1))
    { s with prevChar := byteAt s.input s.index } (s.index + 1) 1
  simp only [Consume, consumeLoop]
  set r := consumeLoopAux pred s.input (s.input.length - (s.index + 1))
    { s with prevChar := byteAt s.input s.index } (s.index + 1) 1 with hr
  have hidx : r.1.index = s.index := hc.1
  have hinp : r.1.input = s.input := hc.2.1
  have hple : s.index + 1 ≤ r.2 := hc.2.2.1
  have hub : r.2 ≤ s.input.length := hc.2.2.2 h
  split
  · rename_i heq
    dsimp only
    exact ⟨rfl, by omega, by omega, by omega, hinp⟩
  · rename_i hne
    have hlt : r.2 < s.input.length := lt_of_le_of_ne hub hne
    dsimp only
    split
    · exact ⟨rfl, by omega, by omega, by omega, hinp⟩
    · exact ⟨rfl, by omega, by omega, by omega, hinp⟩

lemma identifierOrKeyword_ok (lookup : KeywordLookup) (name : List Nat) (s : LexState) :
    ((IdentifierOrKeyword lookup name s).2).index = s.index ∧
    ((IdentifierOrKeyword lookup name s).2).input = s.input := by
  simp only [IdentifierOrKeyword]
  cases lookup name <;> exact ⟨rfl, rfl⟩

lemma identifierOrKeyword_ne_eoi (lookup : KeywordLookup) (name : List Nat)
    (s : LexState) : (IdentifierOrKeyword lookup name s).1 ≠ TokenType.kEndOfInput := by
  simp only [IdentifierOrKeyword]
  cases lookup name <;> exact fun hcontra => TokenType.noConfusion hcontra

lemma numberOrDot_ok (tok : List Nat) (s : LexState) :
    ((NumberOrDot tok s).2).index = s.index ∧
    ((NumberOrDot tok s).2).input = s.input := by
  simp only [NumberOrDot]
  split <;> exact ⟨rfl, rfl⟩

lemma numberOrDot_ne_eoi (tok : List Nat) (s : LexState) :
    (NumberOrDot tok s).1 ≠ TokenType.kEndOfInput := by
  simp only [NumberOrDot]
  split <;> exact fun hcontra => TokenType.noConfusion hcontra

/-- `Consume` facts for a dispatch branch whose pre-state `t` agrees with `s`
on index and input and whose post-state is `g` of the consume state, for a
post-update `g` preserving index and input. -/
lemma branch_ok (pred : LexPred) (hp : PredOk pred) (il ok : Bool) (t s : LexState)
    (hidx : t.index = s.index) (hinp : t.input = s.input)
    (h : s.index < s.input.length) (g : LexState → LexState)
    (hg : ∀ u, (g u).index = u.index ∧ (g u).input = u.input) :
    (Consume pred il ok t).2.1 = s.index ∧
    1 ≤ (Consume pred il ok t).2.2 ∧
    (g ((Consume pred il ok t).1)).index = s.index + (Consume pred il ok t).2.2 ∧
    s.index + (Consume pred il ok t).2.2 ≤ s.input.length ∧
    (g ((Consume pred il ok t).1)).input = s.input := by
  have hc := Consume_ok pred hp il ok t (by rw [hidx, hinp]; exact h)
  rw [hidx, hinp] at hc
  refine ⟨hc.1, hc.2.1, ?_, hc.2.2.2.1, ?_⟩
  · rw [(hg _).1]; exact hc.2.2.1
  · rw [(hg _).2]; exact hc.2.2.2.2

lemma ConsumeSlash_ok (s : LexState) (h : s.index < s.input.length) :
    (ConsumeSlash s).1.1 ≠ TokenType.kEndOfInput ∧
    (ConsumeSlash s).1.2.1 = s.index ∧
    1 ≤ (ConsumeSlash s).1.2.2 ∧
    ((ConsumeSlash s).2).index = s.index + (ConsumeSlash s).1.2.2 ∧
    s.index + (ConsumeSlash s).1.2.2 ≤ s.input.length ∧
    ((ConsumeSlash s).2).input = s.input := by
  simp only [ConsumeSlash, slashOperatorTail]
  split
  · split
    · have hb := branch_ok InSingleLineComment predOk_InSingleLineComment false true
        s s rfl rfl h id (fun u => ⟨rfl, rfl⟩)
      exact ⟨fun hcontra => TokenType.noConfusion hcontra, hb.1, hb.2.1, hb.2.2.1, hb.2.2.2.1, hb.2.2.2.2⟩
    · split
      · have hb := branch_ok InBlockComment predOk_InBlockComment true false
          s s rfl rfl h id (fun u => ⟨rfl, rfl⟩)
        exact ⟨fun hcontra => TokenType.noConfusion hcontra, hb.1, hb.2.1, hb.2.2.1, hb.2.2.2.1, hb.2.2.2.2⟩
      · split
        · have hb := branch_ok InOperator predOk_InOperator false true
            { s with lastTokenMayEndValue := false } s rfl rfl h
            (fun u => { u with lastTokenMayEndValue := false })
            (fun u => ⟨rfl, rfl⟩)
          exact ⟨fun hcontra => TokenType.noConfusion hcontra, hb.1, hb.2.1, hb.2.2.1, hb.2.2.2.1, hb.2.2.2.2⟩
        · have hb := branch_ok InRegex predOk_InRegex true false
            { s with withinBrackets := false } s rfl rfl h id (fun u => ⟨rfl, rfl⟩)
          exact ⟨fun hcontra => TokenType.noConfusion hcontra, hb.1, hb.2.1, hb.2.2.1, hb.2.2.2.1, hb.2.2.2.2⟩
  · have hb := branch_ok InOperator predOk_InOperator false true
      s s rfl rfl h (fun u => { u with lastTokenMayEndValue := false })
      (fun u => ⟨rfl, rfl⟩)
    exact ⟨fun hcontra => TokenType.noConfusion hcontra, hb.1, hb.2.1, hb.2.2.1, hb.2.2.2.1, hb.2.2.2.2⟩

lemma NextToken_ok (lookup : KeywordLookup) (s : LexState) (he : s.error = false)
    (h : s.index < s.input.length) :
    (NextToken lookup s).1.1 ≠ TokenType.kEndOfInput ∧
    (NextToken lookup s).1.2.1 = s.index ∧
    1 ≤ (NextToken lookup s).1.2.2 ∧
    ((NextToken lookup s).2).index = s.index + (NextToken lookup s).1.2.2 ∧
    s.index + (NextToken lookup s).1.2.2 ≤ s.input.length ∧
    ((NextToken lookup s).2).input = s.input := by
  simp only [NextToken]
  rw [if_neg (by rw [he]; simp only [Bool.false_eq_true, false_or, not_le]; exact h)]
  set ch := byteAt s.input s.index with hch
  set s1 : LexState :=
    { s with tokenStart := ch, tokenStartIndex := (s.index : Int) } with hs1
  split
  · have hb := branch_ok IsSpace predOk_IsSpace false true s1 s rfl rfl h id
      (fun u => ⟨rfl, rfl⟩)
    exact ⟨fun hcontra => TokenType.noConfusion hcontra, hb.1, hb.2.1, hb.2.2.1, hb.2.2.2.1, hb.2.2.2.2⟩
  · split
    · have hb := branch_ok IsLineSeparator predOk_IsLineSeparator false true s1 s
        rfl rfl h id (fun u => ⟨rfl, rfl⟩)
      exact ⟨fun hcontra => TokenType.noConfusion hcontra, hb.1, hb.2.1, hb.2.2.1, hb.2.2.2.1, hb.2.2.2.2⟩
    · split
      · have hb := branch_ok IsNumber predOk_IsNumber false true
          { (IsNumber s1 ch 0).2 with seenADot := decide (ch = 46) } s
          ((predOk_IsNumber s1 ch 0).1) ((predOk_IsNumber s1 ch 0).2) h
          (fun u => (NumberOrDot
            (tokenBytes ({ u with seenADot := false } : LexState).input
              (Consume IsNumber false true
                { (IsNumber s1 ch 0).2 with seenADot := decide (ch = 46) }).2)
            ({ u with seenADot := false } : LexState)).2)
          (fun u => ⟨(numberOrDot_ok _ _).1, (numberOrDot_ok _ _).2⟩)
        exact ⟨numberOrDot_ne_eoi _ _, hb.1, hb.2.1, hb.2.2.1, hb.2.2.2.1,
          hb.2.2.2.2⟩
      · split
        · have hcs := ConsumeSlash_ok ((IsNumber s1 ch 0).2)
            (by rw [(predOk_IsNumber s1 ch 0).1, (predOk_IsNumber s1 ch 0).2]
                exact h)
          rw [(predOk_IsNumber s1 ch 0).1, (predOk_IsNumber s1 ch 0).2] at hcs
          exact hcs
        · split
          · have hb := branch_ok InString predOk_InString true false
              { (IsNumber s1 ch 0).2 with tokenStart := ch } s
              ((predOk_IsNumber s1 ch 0).1) ((predOk_IsNumber s1 ch 0).2) h
              (fun u => { u with lastTokenMayEndValue := true })
              (fun u => ⟨rfl, rfl⟩)
            exact ⟨fun hcontra => TokenType.noConfusion hcontra, hb.1, hb.2.1, hb.2.2.1, hb.2.2.2.1, hb.2.2.2.2⟩
          · split
            · have hb := branch_ok InIdentifier predOk_InIdentifier false true
                ((IdentifierStart ((IsNumber s1 ch 0).2) ch).2) s
                (by rw [(identifierStart_ok ((IsNumber s1 ch 0).2) ch).1,
                    (predOk_IsNumber s1 ch 0).1])
                (by rw [(identifierStart_ok ((IsNumber s1 ch 0).2) ch).2,
                    (predOk_IsNumber s1 ch 0).2]) h
                (fun u => (IdentifierOrKeyword lookup
                  (tokenBytes u.input
                    (Consume InIdentifier false true
                      ((IdentifierStart ((IsNumber s1 ch 0).2) ch).2)).2) u).2)
                (fun u => ⟨(identifierOrKeyword_ok _ _ _).1,
                  (identifierOrKeyword_ok _ _ _).2⟩)
              exact ⟨identifierOrKeyword_ne_eoi _ _ _, hb.1, hb.2.1, hb.2.2.1,
                hb.2.2.2.1, hb.2.2.2.2⟩
            · split
              · have hb := branch_ok InSingleLineComment
                  predOk_InSingleLineComment false true
                  ((IdentifierStart ((IsNumber s1 ch 0).2) ch).2) s
                  (by rw [(identifierStart_ok ((IsNumber s1 ch 0).2) ch).1,
                      (predOk_IsNumber s1 ch 0).1])
                  (by rw [(identifierStart_ok ((IsNumber s1 ch 0).2) ch).2,
                      (predOk_IsNumber s1 ch 0).2]) h id (fun u => ⟨rfl, rfl⟩)
                exact ⟨fun hcontra => TokenType.noConfusion hcontra, hb.1, hb.2.1, hb.2.2.1, hb.2.2.2.1, hb.2.2.2.2⟩
              · have hb := branch_ok InOperator predOk_InOperator false true
                  { (IdentifierStart ((IsNumber s1 ch 0).2) ch).2 with
                    tokenStart := ch } s
                  (by rw [show ({ (IdentifierStart ((IsNumber s1 ch 0).2) ch).2 with
                        tokenStart := ch } : LexState).index =
                      ((IdentifierStart ((IsNumber s1 ch 0).2) ch).2).index from rfl,
                      (identifierStart_ok ((IsNumber s1 ch 0).2) ch).1,
                      (predOk_IsNumber s1 ch 0).1])
                  (by rw [show ({ (IdentifierStart ((IsNumber s1 ch 0).2) ch).2 with
                        tokenStart := ch } : LexState).input =
                      ((IdentifierStart ((IsNumber s1 ch 0).2) ch).2).input from rfl,
                      (identifierStart_ok ((IsNumber s1 ch 0).2) ch).2,
                      (predOk_IsNumber s1 ch 0).2]) h id (fun u => ⟨rfl, rfl⟩)
                exact ⟨fun hcontra => TokenType.noConfusion hcontra, hb.1, hb.2.1, hb.2.2.1, hb.2.2.2.1, hb.2.2.2.2⟩

lemma joinSpans_cons (input : List Nat) (t : TokenType × (Nat × Nat))
    (l : List (TokenType × (Nat × Nat))) :
    joinSpans input (t :: l) = tokenBytes input t.2 ++ joinSpans input l := rfl

/-- The invariants of the full lexing run: the input buffer is preserved, the
index only advances (never past the end), the emitted spans concatenate to
exactly the consumed slice, and with enough fuel the run finishes with either
the error flag set or the whole buffer consumed. -/
lemma runLexer_ok (lookup : KeywordLookup) :
    ∀ fuel s, s.index ≤ s.input.length →
      ((runLexer lookup fuel s).2).input = s.input ∧
      s.index ≤ ((runLexer lookup fuel s).2).index ∧
      ((runLexer lookup fuel s).2).index ≤ s.input.length ∧
      joinSpans s.input (runLexer lookup fuel s).1 =
        (s.input.drop s.index).take (((runLexer lookup fuel s).2).index - s.index) ∧
      (s.input.length - s.index < fuel →
        ((runLexer lookup fuel s).2).error = true ∨
        ((runLexer lookup fuel s).2).index = s.input.length) := by
  intro fuel
  induction fuel with
  | zero =>
    intro s hle
    refine ⟨rfl, le_refl _, hle, ?_, fun hcontra => absurd hcontra (by omega)⟩
    simp [runLexer, joinSpans]
  | succ n ih =>
    intro s hle
    by_cases hstop : s.error = true ∨ s.input.length ≤ s.index
    · have hnt : NextToken lookup s = ((TokenType.kEndOfInput, (s.index, 0)), s) := by
        simp only [NextToken]
        rw [if_pos hstop]
      have hrun : runLexer lookup (n + 1) s = ([], s) := by
        simp [runLexer, hnt]
      rw [hrun]
      refine ⟨rfl, le_refl _, hle, by simp [joinSpans], fun _ => ?_⟩
      rcases hstop with herr | hidx
      · exact Or.inl herr
      · exact Or.inr (le_antisymm hle hidx)
    · push_neg at hstop
      obtain ⟨he, hlt⟩ := hstop
      have he' : s.error = false := by
        cases hb : s.error
        · rfl
        · exact absurd hb he
      have hnt := NextToken_ok lookup s he' hlt
      have hinp2 : ((NextToken lookup s).2).input = s.input := hnt.2.2.2.2.2
      have hidx2 : ((NextToken lookup s).2).index =
          s.index + (NextToken lookup s).1.2.2 := hnt.2.2.2.1
      have hub2 : s.index + (NextToken lookup s).1.2.2 ≤ s.input.length :=
        hnt.2.2.2.2.1
      have hsz : 1 ≤ (NextToken lookup s).1.2.2 := hnt.2.2.1
      have hstart : (NextToken lookup s).1.2.1 = s.index := hnt.2.1
      have ihh := ih ((NextToken lookup s).2) (by rw [hinp2, hidx2]; exact hub2)
      rw [hinp2, hidx2] at ihh
      obtain ⟨ih1, ih2, ih3, ih4, ih5⟩ := ihh
      have hrun : runLexer lookup (n + 1) s =
          ((NextToken lookup s).1 :: (runLexer lookup n ((NextToken lookup s).2)).1,
            (runLexer lookup n ((NextToken lookup s).2)).2) := by
        simp only [runLexer]
        rw [if_neg hnt.1]
      rw [hrun]
      dsimp only
      refine ⟨ih1, by omega, ih3, ?_, fun hfuel => ih5 (by omega)⟩
      rw [joinSpans_cons, ih4]
      simp only [tokenBytes, hstart]
      rw [show ((runLexer lookup n ((NextToken lookup s).2)).2).index - s.index =
        (NextToken lookup s).1.2.2 +
          (((runLexer lookup n ((NextToken lookup s).2)).2).index -
            (s.index + (NextToken lookup s).1.2.2)) from by omega]
      rw [List.take_add, List.drop_drop]

/-- C1 (counterexample): for the input `/` `\n` `b` the regex scan aborts on
the unescaped newline with the sticky error flag set, the trailing `b` is
never emitted, and the concatenation of all emitted spans is a proper prefix
of the input — so lossless reconstruction fails for inputs that set the
error flag. -/
theorem C1_counterexample :
    joinSpans [47, 10, 98] (runLexer lookup0 4 (Lex [47, 10, 98] emptyState)).1 ≠
        [47, 10, 98] ∧
    ((runLexer lookup0 4 (Lex [47, 10, 98] emptyState)).2).error = true ∧
    (NextToken lookup0 (runLexer lookup0 4 (Lex [47, 10, 98] emptyState)).2).1.1 =
      TokenType.kEndOfInput := by
  decide

/-- C1 (amended): concatenating the spans of all tokens emitted by a full
scan reproduces, byte for byte, exactly the consumed prefix of the input;
whenever the scan finishes without setting the error flag this prefix is the
entire input.  (When the error flag is set, lexing stops early and the
concatenation can be a proper prefix.) -/
theorem C1_amended_lossless (lookup : KeywordLookup) (input : List Nat) :
    joinSpans input (runLexer lookup (input.length + 1) (Lex input emptyState)).1 =
      input.take
        (((runLexer lookup (input.length + 1) (Lex input emptyState)).2).index) ∧
    (((runLexer lookup (input.length + 1) (Lex input emptyState)).2).error = false →
      joinSpans input
        (runLexer lookup (input.length + 1) (Lex input emptyState)).1 = input) := by
  have h := runLexer_ok lookup (input.length + 1) (Lex input emptyState)
    (by simp [Lex])
  simp only [Lex] at h ⊢
  constructor
  · rw [h.2.2.2.1]
    simp
  · intro herr
    rw [h.2.2.2.1]
    simp only [List.drop_zero, Nat.sub_zero]
    have hfin := h.2.2.2.2 (by omega)
    rcases hfin with hbad | hlen
    · rw [herr] at hbad
      exact absurd hbad (by simp)
    · rw [hlen]
      exact List.take_length input

/-- C1 witness: a concrete error-free input on which the amended theorem
yields full reconstruction. -/
theorem C1_amended_lossless_witness :
    joinSpans [97, 43, 98] (runLexer lookup0 4 (Lex [97, 43, 98] emptyState)).1 =
      [97, 43, 98] := by
  have h := C1_amended_lossless lookup0 [97, 43, 98]
  exact h.2 (by decide)

lemma drop_getD_cons (l : List Nat) (n : Nat) (h : n < l.length) :
    l.drop n = byteAt l n :: l.drop (n + 1) := by
  simp only [byteAt]
  rw [List.getD_eq_getElem l 0 h]
  exact List.drop_eq_getElem_cons h

lemma consumeLoop_end (pred : LexPred) (input : List Nat) (s : LexState) (p i : Nat)
    (h : input.length ≤ p) : consumeLoop pred input s p i = (s, p) := by
  unfold consumeLoop
  rw [show input.length - p = 0 from by omega]
  rfl

lemma consumeLoop_stop (pred : LexPred) (input : List Nat) (s : LexState) (p i : Nat)
    (h : p < input.length) (hstop : (pred s (byteAt input p) i).1 = false) :
    consumeLoop pred input s p i = ((pred s (byteAt input p) i).2, p) := by
  unfold consumeLoop
  obtain ⟨m, hm⟩ : ∃ m, input.length - p = m + 1 := ⟨input.length - p - 1, by omega⟩
  rw [hm]
  simp only [consumeLoopAux, if_pos h]
  rw [hstop]
  simp

lemma consumeLoop_step (pred : LexPred) (input : List Nat) (s : LexState) (p i : Nat)
    (h : p < input.length) (hgo : (pred s (byteAt input p) i).1 = true) :
    consumeLoop pred input s p i =
      consumeLoop pred input
        { (pred s (byteAt input p) i).2 with prevChar := byteAt input p }
        (p + 1) (i + 1) := by
  unfold consumeLoop
  obtain ⟨m, hm⟩ : ∃ m, input.length - p = m + 1 := ⟨input.length - p - 1, by omega⟩
  rw [hm, show input.length - (p + 1) = m from by omega]
  simp only [consumeLoopAux, if_pos h]
  rw [hgo]
  simp


/-- Consuming a one-byte operator token whose first byte merges with nothing:
the byte after the token is examined by `InOperator`, which stores into the
may-end-value flag whether that byte is `)`, `]` or `}`. -/
lemma consume_operator_onebyte (t : LexState) (hix : t.index < t.input.length)
    (hnext : t.index + 1 < t.input.length)
    (hcond : ¬(((t.tokenStart = 43 ∨ t.tokenStart = 45) ∧
        byteAt t.input (t.index + 1) = t.tokenStart) ∨
      (byteAt t.input (t.index + 1) = 61 ∧ (t.tokenStart = 43 ∨ t.tokenStart = 45 ∨
        t.tokenStart = 47 ∨ t.tokenStart = 42)))) :
    Consume InOperator false true t =
      ({ t with
          prevChar := byteAt t.input t.index
          lastTokenMayEndValue := decide (byteAt t.input (t.index + 1) = 41 ∨
            byteAt t.input (t.index + 1) = 93 ∨
            byteAt t.input (t.index + 1) = 125 ∨
            byteAt t.input (t.index + 1) = 0)
          index := t.index + 1 }, (t.index, 1)) := by
  simp only [Consume]
  rw [consumeLoop_stop _ _ _ _ _ hnext
    (by simp only [InOperator]; rw [if_neg hcond])]
  dsimp only
  rw [if_neg (by omega)]
  simp only [InOperator]
  rw [if_neg hcond]
  simp [LexState.mk.injEq]

/-- Consuming an operator token whose single byte ends the input: the loop
body never runs and no field besides the index and `prev_char_` changes. -/
lemma consume_operator_atEnd (t : LexState) (hix : t.index < t.input.length)
    (hend : t.input.length = t.index + 1) :
    Consume InOperator false true t =
      ({ t with
          prevChar := byteAt t.input t.index
          index := t.index + 1 }, (t.index, 1)) := by
  simp only [Consume]
  rw [consumeLoop_end _ _ _ _ _ (by omega)]
  dsimp only
  rw [if_pos (by omega)]
  simp [LexState.mk.injEq]

/-- Dispatch of `NextToken` on a `)`, `]` or `}` byte: it always reaches the
default punctuation branch and consumes with `InOperator`. -/
lemma nextToken_closer_dispatch (lookup : KeywordLookup) (s : LexState) (c : Nat)
    (hc : c = 41 ∨ c = 93 ∨ c = 125) (hbs : s.backslashMode = false)
    (herr : s.error = false) (hix : s.index < s.input.length)
    (hch : byteAt s.input s.index = c) :
    NextToken lookup s = ((TokenType.kOperator,
      (Consume InOperator false true
        { s with tokenStart := c, tokenStartIndex := (s.index : Int) }).2),
      (Consume InOperator false true
        { s with tokenStart := c, tokenStartIndex := (s.index : Int) }).1) := by
  have hdrop := drop_getD_cons s.input s.index hix
  rcases hc with rfl | rfl | rfl <;>
  · simp only [NextToken]
    rw [if_neg (by rw [herr]; simp only [Bool.false_eq_true, false_or, not_le]; omega)]
    rw [hch]
    rw [if_neg (by simp [IsSpace])]
    rw [if_neg (by simp [IsLineSeparator])]
    rw [if_neg (by simp [IsNumber])]
    rw [if_neg (by decide)]
    rw [if_neg (by decide)]
    rw [if_neg (by simp [IsNumber, IdentifierStart, ProcessBackslash, hbs])]
    rw [if_neg (by
      simp only [IsNumber, IdentifierStart, ProcessBackslash, hbs]
      norm_num
      rw [hdrop, hch]
      simp)]
    simp [IsNumber, IdentifierStart, ProcessBackslash, hbs]

/-- What `NextToken` does on a `)`, `]` or `}` byte: it emits a one-byte
operator token, and — exactly as `InOperator` is written — the new
may-end-value flag reflects the byte FOLLOWING the token (it is true iff
that byte is again `)`, `]` or `}`), staying unchanged when the token ends
the buffer. -/
lemma nextToken_closer (lookup : KeywordLookup) (s : LexState) (c : Nat)
    (hc : c = 41 ∨ c = 93 ∨ c = 125) (hbs : s.backslashMode = false)
    (herr : s.error = false) (hix : s.index < s.input.length)
    (hch : byteAt s.input s.index = c) :
    NextToken lookup s = ((TokenType.kOperator, (s.index, 1)),
      { s with
        tokenStart := c
        tokenStartIndex := (s.index : Int)
        prevChar := c
        index := s.index + 1
        lastTokenMayEndValue :=
          if s.index + 1 < s.input.length then
            decide (byteAt s.input (s.index + 1) = 41 ∨
              byteAt s.input (s.index + 1) = 93 ∨
              byteAt s.input (s.index + 1) = 125 ∨
              byteAt s.input (s.index + 1) = 0)
          else s.lastTokenMayEndValue }) := by
  rw [nextToken_closer_dispatch lookup s c hc hbs herr hix hch]
  by_cases hnext : s.index + 1 < s.input.length
  · rw [consume_operator_onebyte
      { s with tokenStart := c, tokenStartIndex := (s.index : Int) } hix hnext
      (by rcases hc with rfl | rfl | rfl <;> simp)]
    rw [if_pos hnext]
    dsimp only
    rw [hch]
  · rw [consume_operator_atEnd
      { s with tokenStart := c, tokenStartIndex := (s.index : Int) } hix
      (by (try dsimp only); omega)]
    rw [if_neg hnext]
    dsimp only
    rw [hch]

/-- When the current byte is a `/` beginning neither `//` nor `/*` and the
may-end-value flag is clear, `NextToken` takes the regex branch. -/
lemma nextToken_slash_regex_kind (lookup : KeywordLookup) (s : LexState)
    (herr : s.error = false) (hix : s.index < s.input.length)
    (hch : byteAt s.input s.index = 47)
    (hnext : s.index + 1 < s.input.length)
    (h1 : byteAt s.input (s.index + 1) ≠ 47)
    (h2 : byteAt s.input (s.index + 1) ≠ 42)
    (hflag : s.lastTokenMayEndValue = false) :
    (NextToken lookup s).1.1 = TokenType.kRegex := by
  simp only [NextToken]
  rw [if_neg (by rw [herr]; simp only [Bool.false_eq_true, false_or, not_le]; omega)]
  rw [hch]
  rw [if_neg (by simp [IsSpace])]
  rw [if_neg (by simp [IsLineSeparator])]
  rw [if_neg (by simp [IsNumber])]
  rw [if_pos rfl]
  simp [IsNumber, ConsumeSlash, hnext, h1, h2, hflag]

/-- C2 (counterexample): on the input `)/a` the lexer emits the operator
token `)` but leaves the may-end-value flag FALSE (because `InOperator`
derives the flag from the byte after the token, here `/`), and the
following `/` is then lexed as a regex literal spanning `/a`, not as a
one-byte division operator — refuting the claim as stated. -/
theorem C2_counterexample :
    (NextToken lookup0 (Lex [41, 47, 97] emptyState)).1 =
      (TokenType.kOperator, (0, 1)) ∧
    ((NextToken lookup0 (Lex [41, 47, 97] emptyState)).2).lastTokenMayEndValue =
      false ∧
    (NextToken lookup0 ((NextToken lookup0 (Lex [41, 47, 97] emptyState)).2)).1 =
      (TokenType.kRegex, (1, 2)) := by
  decide

/-- C2 (amended): after the lexer emits an operator token that is a closing
`)`, `]` or `}`, the may-end-value flag equals whether the byte immediately
FOLLOWING the token is itself `)`, `]`, `}` or NUL — `InOperator` stores the
result of `strchr(")]}", ch)` on the lookahead byte, and `strchr` also
matches the terminating NUL — and the flag is unchanged when the token ends
the input; consequently, when the following byte is `/` the flag is false
and that `/` (beginning neither `//` nor `/*`) is lexed as a regex literal
rather than a division operator. -/
theorem C2_amended_flag (lookup : KeywordLookup) (s : LexState)
    (hbs : s.backslashMode = false) (herr : s.error = false)
    (hix : s.index < s.input.length)
    (hch : byteAt s.input s.index = 41 ∨ byteAt s.input s.index = 93 ∨
      byteAt s.input s.index = 125) :
    (NextToken lookup s).1 = (TokenType.kOperator, (s.index, 1)) ∧
    ((NextToken lookup s).2).lastTokenMayEndValue =
      (if s.index + 1 < s.input.length then
        decide (byteAt s.input (s.index + 1) = 41 ∨
          byteAt s.input (s.index + 1) = 93 ∨
          byteAt s.input (s.index + 1) = 125 ∨
          byteAt s.input (s.index + 1) = 0)
      else s.lastTokenMayEndValue) ∧
    (s.index + 1 < s.input.length → byteAt s.input (s.index + 1) = 47 →
      (((NextToken lookup s).2).lastTokenMayEndValue = false ∧
       (s.index + 2 < s.input.length → byteAt s.input (s.index + 2) ≠ 47 →
        byteAt s.input (s.index + 2) ≠ 42 →
        (NextToken lookup ((NextToken lookup s).2)).1.1 = TokenType.kRegex))) := by
  rw [nextToken_closer lookup s (byteAt s.input s.index) hch hbs herr hix rfl]
  refine ⟨ rfl, rfl, fun hnext h47 => ⟨ ?_, fun h2lt hn47 hn42 => ?_⟩ ⟩
  · dsimp only
    rw [if_pos hnext, h47]
    decide
  · refine nextToken_slash_regex_kind lookup _ herr ?_ ?_ ?_ ?_ ?_ ?_
    · dsimp only; omega
    · dsimp only; exact h47
    · dsimp only; omega
    · dsimp only; exact hn47
    · dsimp only; exact hn42
    · dsimp only
      rw [if_pos hnext, h47]
      decide

/-- C2 witness: the amended theorem applied to the concrete input `)/a`. -/
theorem C2_amended_flag_witness :
    (NextToken lookup0 (Lex [41, 47, 97] emptyState)).1 =
      (TokenType.kOperator, (0, 1)) ∧
    ((NextToken lookup0 (Lex [41, 47, 97] emptyState)).2).lastTokenMayEndValue =
      false ∧
    (NextToken lookup0 ((NextToken lookup0 (Lex [41, 47, 97] emptyState)).2)).1.1 =
      TokenType.kRegex := by
  have h := C2_amended_flag lookup0 (Lex [41, 47, 97] emptyState) (by decide)
    (by decide) (by decide) (by decide)
  refine ⟨ h.1, ?_, ?_⟩
  · rw [h.2.1]; decide
  · exact ((h.2.2 (by decide) (by decide)).2 (by decide) (by decide) (by decide))

/-- C10: when a `/` is the final byte of the input buffer, `NextToken`
always emits it as a one-byte operator token with the may-end-value flag
reset to false, regardless of the previous flag value — the comment and
division-versus-regex disambiguation is skipped entirely at the last byte. -/
theorem C10_trailing_slash (lookup : KeywordLookup) (s : LexState)
    (herr : s.error = false) (hend : s.input.length = s.index + 1)
    (hch : byteAt s.input s.index = 47) :
    (NextToken lookup s).1 = (TokenType.kOperator, (s.index, 1)) ∧
    ((NextToken lookup s).2).lastTokenMayEndValue = false ∧
    ((NextToken lookup s).2).error = false ∧
    ((NextToken lookup s).2).index = s.input.length := by
  have hix : s.index < s.input.length := by omega
  simp only [NextToken]
  rw [if_neg (by rw [herr]; simp only [Bool.false_eq_true, false_or, not_le]; omega)]
  rw [hch]
  rw [if_neg (by simp [IsSpace])]
  rw [if_neg (by simp [IsLineSeparator])]
  rw [if_neg (by simp [IsNumber])]
  rw [if_pos rfl]
  simp only [ConsumeSlash, slashOperatorTail, IsNumber]
  norm_num
  rw [if_neg (by (try dsimp only); omega)]
  rw [consume_operator_atEnd
    { s with tokenStart := 47, tokenStartIndex := (s.index : Int) } hix
    (by (try dsimp only); omega)]
  refine ⟨ rfl, rfl, herr, by (try dsimp only); omega⟩

/-- C10 witness: the input consisting of the single byte `/`. -/
theorem C10_trailing_slash_witness :
    (NextToken lookup0 (Lex [47] emptyState)).1 = (TokenType.kOperator, (0, 1)) ∧
    ((NextToken lookup0 (Lex [47] emptyState)).2).lastTokenMayEndValue = false := by
  have h := C10_trailing_slash lookup0 (Lex [47] emptyState) (by decide) (by decide)
    (by decide)
  exact ⟨ h.1, h.2.1⟩

/-- C9: `Lex` writes every per-scan field of the lexer state, so the state
after `Lex(input)` is independent of whatever the instance previously
scanned, and the whole subsequent stream of (kind, span) results is
identical for a fresh instance and a reused one. -/
theorem C9_lex_reset (input : List Nat) (s t : LexState) :
    Lex input s = Lex input t ∧
    (Lex input s).index = 0 ∧
    (Lex input s).error = false ∧
    (Lex input s).lastTokenMayEndValue = false ∧
    (Lex input s).prevChar = 0 ∧
    (Lex input s).tokenStart = 0 ∧
    (Lex input s).backslashMode = false ∧
    (Lex input s).withinBrackets = false ∧
    (Lex input s).tokenStartIndex = -1 ∧
    (Lex input s).seenADot = false ∧
    (∀ lookup fuel, runLexer lookup fuel (Lex input s) =
      runLexer lookup fuel (Lex input t)) :=
  ⟨rfl, rfl, rfl, rfl, rfl, rfl, rfl, rfl, rfl, rfl, fun _ _ => rfl⟩

/-- `Consume` when the token's single byte ends the buffer: the loop body
never runs; the error flag picks up `!ok_to_terminate_with_eof`. -/
lemma consume_end1 (pred : LexPred) (il ok : Bool) (t : LexState)
    (hix : t.index < t.input.length) (hend : t.input.length = t.index + 1) :
    Consume pred il ok t =
      ({ t with
          prevChar := byteAt t.input t.index
          error := t.error || !ok
          index := t.index + 1 }, (t.index, 1)) := by
  simp only [Consume]
  rw [consumeLoop_end _ _ _ _ _ (by omega)]
  dsimp only
  rw [if_pos (by omega)]
  simp [LexState.mk.injEq]

/-- `Consume` when the predicate rejects the very next byte (with more input
after it): a token of one byte (`include_last_char` extends it to two). -/
lemma consume_stop1 (pred : LexPred) (il ok : Bool) (t : LexState)
    (hix : t.index < t.input.length) (hnext : t.index + 1 < t.input.length)
    (hstop : (pred { t with prevChar := byteAt t.input t.index }
      (byteAt t.input (t.index + 1)) 1).1 = false) :
    Consume pred il ok t =
      ({ (pred { t with prevChar := byteAt t.input t.index }
            (byteAt t.input (t.index + 1)) 1).2 with
          index := ((pred { t with prevChar := byteAt t.input t.index }
            (byteAt t.input (t.index + 1)) 1).2).index + (if il then 2 else 1) },
        (t.index, if il then 2 else 1)) := by
  simp only [Consume]
  rw [consumeLoop_stop _ _ _ _ _ hnext hstop]
  dsimp only
  rw [if_neg (by omega)]
  rcases il <;> simp [LexState.mk.injEq] <;> omega

/-- With `include_last_char` false the token span is always
`(start, stop - start)` where `stop` is the loop's final position. -/
lemma consume_tok_ilfalse (pred : LexPred) (ok : Bool) (t : LexState) :
    (Consume pred false ok t).2 = (t.index,
      (consumeLoop pred t.input { t with prevChar := byteAt t.input t.index }
        (t.index + 1) 1).2 - t.index) := by
  simp only [Consume]
  split <;> rfl

/-- The state from which the number consume starts: `token_start_` and
`token_start_index_` set by the dispatcher, `seen_a_dot_` recording whether
the token begins with a dot. -/
def numberScanState (s : LexState) : LexState :=
  { s with
    tokenStart := byteAt s.input s.index
    tokenStartIndex := (s.index : Int)
    seenADot := decide (byteAt s.input s.index = 46) }

/-- Dispatch of `NextToken` on a digit, or on a dot with `seen_a_dot_`
clear: the number branch runs. -/
lemma nextToken_number_dispatch (lookup : KeywordLookup) (s : LexState)
    (herr : s.error = false) (hix : s.index < s.input.length)
    (hstart : (byteAt s.input s.index = 46 ∧ s.seenADot = false) ∨
      (48 ≤ byteAt s.input s.index ∧ byteAt s.input s.index ≤ 57)) :
    NextToken lookup s =
      (((NumberOrDot (tokenBytes
            ((Consume IsNumber false true (numberScanState s)).1).input
            (Consume IsNumber false true (numberScanState s)).2)
          { (Consume IsNumber false true (numberScanState s)).1 with
            seenADot := false }).1,
        (Consume IsNumber false true (numberScanState s)).2),
       (NumberOrDot (tokenBytes
            ((Consume IsNumber false true (numberScanState s)).1).input
            (Consume IsNumber false true (numberScanState s)).2)
          { (Consume IsNumber false true (numberScanState s)).1 with
            seenADot := false }).2) := by
  rcases hstart with ⟨hch, hdot⟩ | ⟨hlo, hhi⟩
  · simp only [NextToken]
    rw [if_neg (by rw [herr]; simp only [Bool.false_eq_true, false_or, not_le]; omega)]
    rw [hch]
    rw [if_neg (by simp [IsSpace])]
    rw [if_neg (by simp [IsLineSeparator])]
    rw [if_pos (by simp [IsNumber, hdot])]
    simp only [IsNumber, hdot, numberScanState, hch]
    norm_num
  · have hch32 : ¬(byteAt s.input s.index = 32 ∨ byteAt s.input s.index = 9 ∨
        byteAt s.input s.index = 12 ∨ byteAt s.input s.index = 0) := by omega
    have hch10 : ¬(byteAt s.input s.index = 10 ∨ byteAt s.input s.index = 13 ∨
        byteAt s.input s.index = 0) := by omega
    have hch46 : ¬(byteAt s.input s.index = 46) := by omega
    simp only [NextToken]
    rw [if_neg (by rw [herr]; simp only [Bool.false_eq_true, false_or, not_le]; omega)]
    rw [if_neg (by simp only [IsSpace, decide_eq_true_eq]; exact hch32)]
    rw [if_neg (by simp only [IsLineSeparator, decide_eq_true_eq]; exact hch10)]
    rw [if_pos (by
      simp only [IsNumber]
      rw [if_neg hch46]
      simp only [decide_eq_true_eq]
      omega)]
    simp only [IsNumber]
    rw [if_neg hch46]
    simp [numberScanState, LexState.mk.injEq, hch46]

/-- Counting occurrences in a prefix of a cons: the head contributes at most
its own match, the rest is a prefix of the tail. -/
lemma count_take_cons_bound (m : Nat) (a : Nat) (l : List Nat) (c : Nat) :
    ((a :: l).take m).count c ≤ (if a == c then 1 else 0) + (l.take (m - 1)).count c := by
  cases m with
  | zero => simp
  | succ k =>
    rw [List.take_succ_cons, List.count_cons]
    simp only [Nat.succ_sub_one]
    split <;> omega

/-- Along an `IsNumber` scan the accepted bytes contain at most one dot,
and none at all once `seen_a_dot_` is already set. -/
lemma consumeLoopAux_isNumber_dots (input : List Nat) :
    ∀ fuel s p i,
      ((input.drop p).take
        ((consumeLoopAux IsNumber input fuel s p i).2 - p)).count 46 ≤
        (if s.seenADot then 0 else 1) := by
  intro fuel
  induction fuel with
  | zero =>
    intro s p i
    simp only [consumeLoopAux, Nat.sub_self, List.take_zero, List.count_nil]
    split <;> omega
  | succ n ih =>
    intro s p i
    simp only [consumeLoopAux]
    split
    · rename_i hp
      by_cases h46 : byteAt input p = 46
      · by_cases hsd : s.seenADot
        · have hfalse : (IsNumber s (byteAt input p) i).1 = false := by
            simp only [IsNumber]
            rw [if_pos h46, if_pos hsd]
          rw [hfalse]
          simp
        · have htrue : (IsNumber s (byteAt input p) i).1 = true := by
            simp only [IsNumber]
            rw [if_pos h46, if_neg hsd]
          rw [htrue]
          simp only [if_true]
          rw [if_neg hsd]
          rw [drop_getD_cons input p hp]
          refine le_trans (count_take_cons_bound _ _ _ _) ?_
          have hbeq : (byteAt input p == 46) = true := by
            rw [h46]
            decide
          rw [hbeq]
          simp only [if_true]
          rw [Nat.sub_sub]
          refine le_trans (Nat.add_le_add_left (ih _ (p + 1) (i + 1)) 1) ?_
          simp [IsNumber, h46, hsd]
      · by_cases hdig : (48 ≤ byteAt input p ∧ byteAt input p ≤ 57)
        · have htrue : (IsNumber s (byteAt input p) i).1 = true := by
            simp only [IsNumber]
            rw [if_neg h46]
            dsimp only
            exact decide_eq_true hdig
          rw [htrue]
          simp only [if_true]
          rw [drop_getD_cons input p hp]
          refine le_trans (count_take_cons_bound _ _ _ _) ?_
          have hne : (byteAt input p == 46) = false := by
            simp only [beq_eq_false_iff_ne, ne_eq]
            exact h46
          rw [hne]
          simp only [Bool.false_eq_true, if_false, Nat.zero_add]
          rw [Nat.sub_sub]
          refine le_trans (ih _ (p + 1) (i + 1)) ?_
          simp [IsNumber, h46]
        · have hfalse : (IsNumber s (byteAt input p) i).1 = false := by
            simp only [IsNumber]
            rw [if_neg h46]
            dsimp only
            exact decide_eq_false hdig
          rw [hfalse]
          simp
    · simp only [Nat.sub_self, List.take_zero, List.count_nil]
      split <;> omega

/-- C8: a token starting with a digit or dot accepts at most one decimal
point.  (1) On the input `1.2.3` the lexer emits the number token `1.2`
(ending just before the second dot) followed by the further number token
`.3`.  (2) A `.` not followed by a digit is emitted as a one-byte operator
token, not a number, with the may-end-value flag false.  (3) Every token
produced by the number branch contains at most one `.` in its byte span. -/
theorem C8_number_dot :
    ((runLexer lookup0 6 (Lex [49, 46, 50, 46, 51] emptyState)).1 =
      [(TokenType.kNumber, (0, 3)), (TokenType.kNumber, (3, 2))]) ∧
    (∀ (lookup : KeywordLookup) (s : LexState), s.error = false →
      s.index < s.input.length → byteAt s.input s.index = 46 →
      s.seenADot = false →
      (s.index + 1 = s.input.length ∨
        ¬(48 ≤ byteAt s.input (s.index + 1) ∧ byteAt s.input (s.index + 1) ≤ 57)) →
      (NextToken lookup s).1 = (TokenType.kOperator, (s.index, 1)) ∧
      ((NextToken lookup s).2).lastTokenMayEndValue = false) ∧
    (∀ (lookup : KeywordLookup) (s : LexState), s.error = false →
      s.index < s.input.length →
      ((byteAt s.input s.index = 46 ∧ s.seenADot = false) ∨
        (48 ≤ byteAt s.input s.index ∧ byteAt s.input s.index ≤ 57)) →
      (tokenBytes s.input (NextToken lookup s).1.2).count 46 ≤ 1) := by
  refine ⟨by decide, ?_, ?_⟩
  · intro lookup s herr hix hch hdot hnd
    rw [nextToken_number_dispatch lookup s herr hix (Or.inl ⟨hch, hdot⟩)]
    have htok : (Consume IsNumber false true (numberScanState s)).2 =
        (s.index, 1) ∧
        ((Consume IsNumber false true (numberScanState s)).1).input = s.input := by
      by_cases hnext : s.index + 1 < s.input.length
      · have hstop : (IsNumber { numberScanState s with
            prevChar := byteAt (numberScanState s).input (numberScanState s).index }
            (byteAt (numberScanState s).input ((numberScanState s).index + 1))
            1).1 = false := by
          rcases hnd with hend | hnd2
          · exact absurd hend (by omega)
          · by_cases h46 : byteAt s.input (s.index + 1) = 46
            · simp [IsNumber, numberScanState, hch, h46]
            · simp [IsNumber, numberScanState, h46, hnd2]
        rw [consume_stop1 IsNumber false true (numberScanState s) hix hnext hstop]
        constructor
        · simp [numberScanState]
        · by_cases h46 : byteAt s.input (s.index + 1) = 46
          · simp [IsNumber, numberScanState, hch, h46]
          · simp [IsNumber, numberScanState, h46]
      · rw [consume_end1 IsNumber false true (numberScanState s) hix (by
          simp only [numberScanState]
          (try dsimp only)
          omega)]
        exact ⟨rfl, rfl⟩
    rw [htok.1]
    have hbytes : tokenBytes ((Consume IsNumber false true
        (numberScanState s)).1).input (s.index, 1) = [46] := by
      rw [htok.2]
      simp only [tokenBytes]
      rw [drop_getD_cons s.input s.index hix, hch]
      rfl
    rw [hbytes]
    simp [NumberOrDot]
  · intro lookup s herr hix hstart
    rw [nextToken_number_dispatch lookup s herr hix hstart]
    dsimp only
    rw [consume_tok_ilfalse]
    have hdots := consumeLoopAux_isNumber_dots (numberScanState s).input
      ((numberScanState s).input.length - ((numberScanState s).index + 1))
      { numberScanState s with
        prevChar := byteAt (numberScanState s).input (numberScanState s).index }
      ((numberScanState s).index + 1) 1
    have hmono := (consumeLoopAux_ok IsNumber predOk_IsNumber
      (numberScanState s).input
      ((numberScanState s).input.length - ((numberScanState s).index + 1))
      { numberScanState s with
        prevChar := byteAt (numberScanState s).input (numberScanState s).index }
      ((numberScanState s).index + 1) 1).2.2.1
    simp only [consumeLoop]
    simp only [numberScanState] at hdots hmono ⊢
    (try dsimp only at hdots hmono ⊢)
    simp only [tokenBytes]
    (try dsimp only)
    rw [drop_getD_cons s.input s.index hix]
    refine le_trans (count_take_cons_bound _ _ _ _) ?_
    rw [Nat.sub_sub]
    rcases hstart with ⟨hch, hdot⟩ | ⟨hlo, hhi⟩
    · have hbeq : (byteAt s.input s.index == 46) = true := by
        rw [hch]
        decide
      rw [hbeq]
      simp only [if_true]
      rw [if_pos (by rw [hch]; decide)] at hdots
      omega
    · have hne : (byteAt s.input s.index == 46) = false := by
        simp only [beq_eq_false_iff_ne, ne_eq]
        omega
      rw [hne]
      simp only [Bool.false_eq_true, if_false, Nat.zero_add]
      split at hdots <;> omega

/-- C8 witness: the lone-dot rule applied to the concrete input `.a`, and
the one-dot bound applied to the first token of `1.2.3`. -/
theorem C8_number_dot_witness :
    ((NextToken lookup0 (Lex [46, 97] emptyState)).1 =
      (TokenType.kOperator, (0, 1)) ∧
     ((NextToken lookup0 (Lex [46, 97] emptyState)).2).lastTokenMayEndValue =
      false) ∧
    (tokenBytes [49, 46, 50, 46, 51]
      (NextToken lookup0 (Lex [49, 46, 50, 46, 51] emptyState)).1.2).count 46 ≤ 1 := by
  have h := C8_number_dot
  exact ⟨h.2.1 lookup0 (Lex [46, 97] emptyState) (by decide) (by decide) (by decide)
      (by decide) (by decide),
    h.2.2 lookup0 (Lex [49, 46, 50, 46, 51] emptyState) (by decide) (by decide)
      (by decide)⟩

/-- Reference regex scanner, following the spec's words: the body of a
regex literal is consumed up to the next unescaped `/` outside `[...]`
brackets; a `/` inside brackets does not terminate; the bracket state is a
single non-nesting boolean; an unescaped newline is an error that aborts
the scan.  Returns how many bytes were scanned before stopping, paired with
`some true` for a closing slash, `some false` for the newline error, and
`none` when the input ran out (unterminated regex). -/
def regexScanSpec : Bool → Bool → List Nat → Nat × Option Bool
  | _, _, [] => (0, none)
  | true, inBr, _ :: rest =>
    let r := regexScanSpec false inBr rest
    (r.1 + 1, r.2)
  | false, inBr, b :: rest =>
    if b = 92 then
      let r := regexScanSpec true inBr rest
      (r.1 + 1, r.2)
    else if b = 47 ∧ inBr = false then (0, some true)
    else if b = 91 then
      let r := regexScanSpec false true rest
      (r.1 + 1, r.2)
    else if b = 93 then
      let r := regexScanSpec false false rest
      (r.1 + 1, r.2)
    else if b = 10 then (0, some false)
    else
      let r := regexScanSpec false inBr rest
      (r.1 + 1, r.2)

lemma regexScanSpec_le_length : ∀ (l : List Nat) (e k : Bool),
    (regexScanSpec e k l).1 ≤ l.length ∧
    ((regexScanSpec e k l).2 = none ↔ (regexScanSpec e k l).1 = l.length) := by
  intro l
  induction l with
  | nil => intro e k; cases e <;> simp [regexScanSpec]
  | cons b rest ih =>
    intro e k
    simp only [List.length_cons]
    cases e
    · simp only [regexScanSpec]
      by_cases h92 : b = 92
      · rw [if_pos h92]
        have := ih true k
        (try dsimp only)
        constructor
        · omega
        · rw [this.2]
          omega
      · rw [if_neg h92]
        by_cases h47 : b = 47 ∧ k = false
        · rw [if_pos h47]
          simp
        · rw [if_neg h47]
          by_cases h91 : b = 91
          · rw [if_pos h91]
            have := ih false true
            (try dsimp only)
            constructor
            · omega
            · rw [this.2]; omega
          · rw [if_neg h91]
            by_cases h93 : b = 93
            · rw [if_pos h93]
              have := ih false false
              (try dsimp only)
              constructor
              · omega
              · rw [this.2]; omega
            · rw [if_neg h93]
              by_cases h10 : b = 10
              · rw [if_pos h10]
                simp
              · rw [if_neg h10]
                have := ih false k
                (try dsimp only)
                constructor
                · omega
                · rw [this.2]; omega
    · simp only [regexScanSpec]
      have := ih false k
      (try dsimp only)
      constructor
      · omega
      · rw [this.2]; omega

/-- The branch of the consume loop on a predicate that returned true. -/
lemma ite_pred_true {α : Sort _} (X : LexState) (a b : α) :
    (if ((true, X) : Bool × LexState).1 = true then a else b) = a := rfl

/-- The branch of the consume loop on a predicate that returned false. -/
lemma ite_pred_false {α : Sort _} (X : LexState) (a b : α) :
    (if ((false, X) : Bool × LexState).1 = true then a else b) = b := rfl

/-- The `InRegex` consume loop agrees with the reference regex scanner: it
stops exactly `(regexScanSpec ...).1` bytes further on, and sets the error
flag exactly on the newline abort. -/
lemma inRegex_loop_spec (input : List Nat) :
    ∀ fuel s p i, input.length - p ≤ fuel → p ≤ input.length →
      (consumeLoopAux InRegex input fuel s p i).2 =
        p + (regexScanSpec s.backslashMode s.withinBrackets (input.drop p)).1 ∧
      ((consumeLoopAux InRegex input fuel s p i).1).error =
        (s.error || decide ((regexScanSpec s.backslashMode s.withinBrackets
          (input.drop p)).2 = some false)) := by
  intro fuel
  induction fuel with
  | zero =>
    intro s p i hf hp
    have hplen : input.length ≤ p := by omega
    rw [List.drop_eq_nil_of_le hplen]
    cases hb : s.backslashMode <;> simp [consumeLoopAux, regexScanSpec]
  | succ n ih =>
    intro s p i hf hp
    by_cases hplt : p < input.length
    · rw [drop_getD_cons input p hplt]
      simp only [consumeLoopAux, if_pos hplt]
      by_cases hbs : s.backslashMode
      · have hpred : InRegex s (byteAt input p) i =
            (true, { s with backslashMode := false }) := by
          simp [InRegex, ProcessBackslash, hbs]
        rw [hpred, ite_pred_true, hbs]
        simp only [regexScanSpec]
        rw [(ih _ (p + 1) (i + 1) (by omega) (by omega)).1,
          (ih _ (p + 1) (i + 1) (by omega) (by omega)).2]
        (try dsimp only)
        exact ⟨by omega, rfl⟩
      · have hbs2 : s.backslashMode = false := by
          cases hb : s.backslashMode
          · rfl
          · exact absurd hb hbs
        by_cases h92 : byteAt input p = 92
        · have hpred : InRegex s (byteAt input p) i =
              (true, { s with backslashMode := true }) := by
            simp [InRegex, ProcessBackslash, hbs2, h92]
          rw [hpred, ite_pred_true, hbs2]
          simp only [regexScanSpec]
          rw [if_pos h92]
          rw [(ih _ (p + 1) (i + 1) (by omega) (by omega)).1,
            (ih _ (p + 1) (i + 1) (by omega) (by omega)).2]
          (try dsimp only)
          exact ⟨by omega, rfl⟩
        · by_cases h47 : byteAt input p = 47
          · by_cases hwb : s.withinBrackets
            · have hpred : InRegex s (byteAt input p) i = (true, s) := by
                simp [InRegex, ProcessBackslash, hbs2, h92, h47, hwb]
              rw [hpred, ite_pred_true, hbs2]
              simp only [regexScanSpec]
              rw [if_neg h92, if_neg (by simp [hwb]), if_neg (by omega),
                if_neg (by omega), if_neg (by omega)]
              rw [(ih _ (p + 1) (i + 1) (by omega) (by omega)).1,
                (ih _ (p + 1) (i + 1) (by omega) (by omega)).2]
              (try dsimp only)
              exact ⟨by omega, rfl⟩
            · have hwb2 : s.withinBrackets = false := by
                cases hb : s.withinBrackets
                · rfl
                · exact absurd hb hwb
              have hpred : InRegex s (byteAt input p) i = (false, s) := by
                simp [InRegex, ProcessBackslash, hbs2, h92, h47, hwb2]
              rw [hpred, ite_pred_false, hbs2]
              simp only [regexScanSpec]
              rw [if_neg h92, if_pos ⟨h47, hwb2⟩]
              (try dsimp only)
              exact ⟨by omega, by simp⟩
          · by_cases h91 : byteAt input p = 91
            · have hpred : InRegex s (byteAt input p) i =
                  (true, { s with withinBrackets := true }) := by
                simp [InRegex, ProcessBackslash, hbs2, h92, h47, h91]
              rw [hpred, ite_pred_true, hbs2]
              simp only [regexScanSpec]
              rw [if_neg h92, if_neg (fun hcontra => h47 hcontra.1), if_pos h91]
              rw [(ih _ (p + 1) (i + 1) (by omega) (by omega)).1,
                (ih _ (p + 1) (i + 1) (by omega) (by omega)).2]
              (try dsimp only)
              exact ⟨by omega, rfl⟩
            · by_cases h93 : byteAt input p = 93
              · have hpred : InRegex s (byteAt input p) i =
                    (true, { s with withinBrackets := false }) := by
                  simp [InRegex, ProcessBackslash, hbs2, h92, h47, h91, h93]
                rw [hpred, ite_pred_true, hbs2]
                simp only [regexScanSpec]
                rw [if_neg h92, if_neg (fun hcontra => h47 hcontra.1),
                  if_neg h91, if_pos h93]
                rw [(ih _ (p + 1) (i + 1) (by omega) (by omega)).1,
                  (ih _ (p + 1) (i + 1) (by omega) (by omega)).2]
                (try dsimp only)
                exact ⟨by omega, rfl⟩
              · by_cases h10 : byteAt input p = 10
                · have hpred : InRegex s (byteAt input p) i =
                      (false, { s with error := true }) := by
                    simp [InRegex, ProcessBackslash, hbs2, h92, h47, h91, h93, h10]
                  rw [hpred, ite_pred_false, hbs2]
                  simp only [regexScanSpec]
                  rw [if_neg h92, if_neg (fun hcontra => h47 hcontra.1),
                    if_neg h91, if_neg h93, if_pos h10]
                  (try dsimp only)
                  exact ⟨by omega, by simp⟩
                · have hpred : InRegex s (byteAt input p) i = (true, s) := by
                    simp [InRegex, ProcessBackslash, hbs2, h92, h47, h91, h93, h10]
                  rw [hpred, ite_pred_true, hbs2]
                  simp only [regexScanSpec]
                  rw [if_neg h92, if_neg (fun hcontra => h47 hcontra.1),
                    if_neg h91, if_neg h93, if_neg h10]
                  rw [(ih _ (p + 1) (i + 1) (by omega) (by omega)).1,
                    (ih _ (p + 1) (i + 1) (by omega) (by omega)).2]
                  (try dsimp only)
                  exact ⟨by omega, rfl⟩
    · have hplen : input.length ≤ p := by omega
      rw [List.drop_eq_nil_of_le hplen]
      simp only [consumeLoopAux, if_neg hplt]
      cases hb : s.backslashMode <;> simp [regexScanSpec]

/-- What `Consume InRegex` produces, expressed through the reference regex
scanner: the token starts at the slash; when the scan stops on a closing
slash or a newline the token spans the scanned bytes plus the opening
slash and the terminating byte; when the input runs out it spans the rest
of the buffer; the error flag is set unless a closing slash was found. -/
lemma consume_regex_spec (t : LexState) (hix : t.index < t.input.length) :
    (Consume InRegex true false t).2 =
      (t.index,
        match (regexScanSpec t.backslashMode t.withinBrackets
            (t.input.drop (t.index + 1))).2 with
        | some _ => (regexScanSpec t.backslashMode t.withinBrackets
            (t.input.drop (t.index + 1))).1 + 2
        | none => t.input.length - t.index) ∧
    ((Consume InRegex true false t).1).error =
      (t.error || decide ((regexScanSpec t.backslashMode t.withinBrackets
        (t.input.drop (t.index + 1))).2 ≠ some true)) := by
  obtain ⟨hl1, hl2⟩ := inRegex_loop_spec t.input (t.input.length - (t.index + 1))
    { t with prevChar := byteAt t.input t.index } (t.index + 1) 1 (le_refl _)
    (by omega)
  have hlen := regexScanSpec_le_length (t.input.drop (t.index + 1))
    t.backslashMode t.withinBrackets
  rw [List.length_drop] at hlen
  (try dsimp only at hl1 hl2)
  simp only [Consume, consumeLoop]
  rcases hsc : (regexScanSpec t.backslashMode t.withinBrackets
      (t.input.drop (t.index + 1))).2 with _ | b
  · have hn : (regexScanSpec t.backslashMode t.withinBrackets
        (t.input.drop (t.index + 1))).1 = t.input.length - (t.index + 1) :=
      hlen.2.mp hsc
    rw [if_pos (by omega)]
    refine ⟨?_, ?_⟩
    · dsimp only
      simp only [Prod.mk.injEq]
      refine ⟨trivial, ?_⟩
      rw [hl1]
      have harith : t.index + 1 + (regexScanSpec t.backslashMode t.withinBrackets
          (t.input.drop (t.index + 1))).1 - t.index = t.input.length - t.index := by
        omega
      exact harith
    · dsimp only
      simp
  · have hne : (regexScanSpec t.backslashMode t.withinBrackets
        (t.input.drop (t.index + 1))).1 ≠ t.input.length - (t.index + 1) := by
      intro hc
      exact Option.noConfusion ((hlen.2.mpr hc).symm.trans hsc)
    rw [if_neg (by omega)]
    refine ⟨?_, ?_⟩
    · dsimp only
      simp only [Prod.mk.injEq, if_true]
      refine ⟨trivial, ?_⟩
      rw [hl1]
      have harith2 : t.index + 1 + (regexScanSpec t.backslashMode t.withinBrackets
          (t.input.drop (t.index + 1))).1 - t.index + 1 =
          (regexScanSpec t.backslashMode t.withinBrackets
            (t.input.drop (t.index + 1))).1 + 2 := by
        omega
      exact harith2
    · dsimp only
      rw [hl2, hsc]
      cases b <;> simp

/-- Consuming an operator token that starts with `/` whose next byte is `=`:
`InOperator` merges the two bytes into a single `/=` token (clearing
`token_start_` so no triple merge occurs), the error flag and input are
untouched, and the index advances by two. -/
lemma consume_operator_slashEq (t : LexState) (hts : t.tokenStart = 47)
    (hix : t.index < t.input.length) (hnext : t.index + 1 < t.input.length)
    (h61 : byteAt t.input (t.index + 1) = 61) :
    (Consume InOperator false true t).2 = (t.index, 2) ∧
    ((Consume InOperator false true t).1).error = t.error ∧
    ((Consume InOperator false true t).1).index = t.index + 2 ∧
    ((Consume InOperator false true t).1).input = t.input := by
  have hpred1 : (InOperator { t with prevChar := byteAt t.input t.index }
      (byteAt t.input (t.index + 1)) 1).1 = true := by
    simp [InOperator, hts, h61]
  have hstate : (InOperator { t with prevChar := byteAt t.input t.index }
      (byteAt t.input (t.index + 1)) 1).2 =
      { t with
          prevChar := byteAt t.input t.index
          tokenStart := 0 } := by
    simp [InOperator, hts, h61]
  simp only [Consume]
  rw [consumeLoop_step _ _ _ _ _ hnext hpred1, hstate]
  by_cases hend : t.index + 2 = t.input.length
  · rw [consumeLoop_end _ _ _ _ _ (by omega)]
    dsimp only
    rw [if_pos (by omega)]
    refine ⟨?_, ?_, ?_, ?_⟩ <;> (try dsimp only) <;> simp <;> omega
  · rw [consumeLoop_stop _ _ _ _ _ (by omega) (by simp [InOperator])]
    dsimp only
    rw [if_neg (by omega)]
    refine ⟨?_, ?_, ?_, ?_⟩ <;> (try dsimp only) <;> simp [InOperator] <;> omega

/-- Dispatch of `NextToken` on a `/` byte: no earlier branch fires and the
slash handler runs on the state with `token_start_` and `token_start_index_`
set. -/
lemma nextToken_slash_dispatch (lookup : KeywordLookup) (s : LexState)
    (herr : s.error = false) (hix : s.index < s.input.length)
    (hch : byteAt s.input s.index = 47) :
    NextToken lookup s = ConsumeSlash
      { s with tokenStart := 47, tokenStartIndex := (s.index : Int) } := by
  simp only [NextToken]
  rw [if_neg (by rw [herr]; simp only [Bool.false_eq_true, false_or, not_le]; omega)]
  rw [hch]
  rw [if_neg (by simp [IsSpace])]
  rw [if_neg (by simp [IsLineSeparator])]
  rw [if_neg (by simp [IsNumber])]
  rw [if_pos rfl]
  simp [IsNumber]

/-- C3 (counterexample): on the input `a/=b` the identifier `a` sets the
may-end-value flag, so the `/` takes the division branch — but `InOperator`
merges `/=` into a single TWO-byte operator token `(1, 2)`, refuting the
claim that the division slash is always emitted as a one-byte token. -/
theorem C3_counterexample :
    ((NextToken lookup0 (Lex [97, 47, 61, 98] emptyState)).2).lastTokenMayEndValue
      = true ∧
    (NextToken lookup0 ((NextToken lookup0
      (Lex [97, 47, 61, 98] emptyState)).2)).1 =
      (TokenType.kOperator, (1, 2)) := by
  decide

/-- C3 (amended): for a `/` beginning neither `//` nor `/*`, with a byte
after it: if the may-end-value flag is set, the slash is consumed as an
operator token of one byte — or two bytes when the next byte is `=`
(the `/=` merge) — with the flag reset to false and no error; if the flag is
clear, the slash starts a regex literal whose span is determined by the
reference regex scan (up to an unescaped `/` outside the non-nesting
`[...]` bracket state, aborting on a newline or at end of input), and the
error flag is set exactly when no closing `/` terminated the regex. -/
theorem C3_amended_slash (lookup : KeywordLookup) (s : LexState)
    (hbs : s.backslashMode = false) (herr : s.error = false)
    (hix : s.index < s.input.length) (hch : byteAt s.input s.index = 47)
    (hnext : s.index + 1 < s.input.length)
    (h1 : byteAt s.input (s.index + 1) ≠ 47)
    (h2 : byteAt s.input (s.index + 1) ≠ 42) :
    (s.lastTokenMayEndValue = true →
      (NextToken lookup s).1 = (TokenType.kOperator,
        (s.index, if byteAt s.input (s.index + 1) = 61 then 2 else 1)) ∧
      ((NextToken lookup s).2).lastTokenMayEndValue = false ∧
      ((NextToken lookup s).2).error = false) ∧
    (s.lastTokenMayEndValue = false →
      (NextToken lookup s).1 = (TokenType.kRegex,
        (s.index,
          match (regexScanSpec false false (s.input.drop (s.index + 1))).2 with
          | some _ => (regexScanSpec false false (s.input.drop (s.index + 1))).1 + 2
          | none => s.input.length - s.index)) ∧
      ((NextToken lookup s).2).error =
        decide ((regexScanSpec false false (s.input.drop (s.index + 1))).2
          ≠ some true)) := by
  rw [nextToken_slash_dispatch lookup s herr hix hch]
  simp only [ConsumeSlash]
  rw [if_pos (by (try dsimp only); omega)]
  rw [if_neg (by (try dsimp only); exact h1)]
  rw [if_neg (by (try dsimp only); exact h2)]
  constructor
  · intro hflag
    rw [if_pos (by (try dsimp only); exact hflag)]
    simp only [slashOperatorTail]
    (try dsimp only)
    by_cases h61 : byteAt s.input (s.index + 1) = 61
    · obtain ⟨htok, herr2, _, _⟩ := consume_operator_slashEq
        { input := s.input, index := s.index, error := s.error,
          lastTokenMayEndValue := false, prevChar := s.prevChar,
          tokenStart := 47, backslashMode := s.backslashMode,
          withinBrackets := s.withinBrackets,
          tokenStartIndex := (s.index : Int), seenADot := s.seenADot }
        rfl (by (try dsimp only); omega) (by (try dsimp only); omega)
        (by (try dsimp only); exact h61)
      (try dsimp only at htok herr2)
      rw [if_pos h61, htok]
      refine ⟨?_, ?_, ?_⟩
      · rfl
      · trivial
      · rw [herr2]
        exact herr
    · rw [consume_operator_onebyte
        { input := s.input, index := s.index, error := s.error,
          lastTokenMayEndValue := false, prevChar := s.prevChar,
          tokenStart := 47, backslashMode := s.backslashMode,
          withinBrackets := s.withinBrackets,
          tokenStartIndex := (s.index : Int), seenADot := s.seenADot }
        (by (try dsimp only); omega) (by (try dsimp only); omega)
        (by (try dsimp only)
            intro hcontra
            rcases hcontra with ⟨hA, _⟩ | ⟨he, _⟩
            · exact absurd hA (by decide)
            · exact h61 he)]
      rw [if_neg h61]
      (try dsimp only)
      refine ⟨?_, ?_, ?_⟩
      · first
        | rfl
        | trivial
      · first
        | rfl
        | trivial
      · first
        | exact herr
        | trivial
  · intro hflag
    rw [if_neg (by (try dsimp only); rw [hflag]; exact Bool.false_ne_true)]
    (try dsimp only)
    rw [hbs]
    obtain ⟨htok, herr2⟩ := consume_regex_spec
      { input := s.input, index := s.index, error := s.error,
        lastTokenMayEndValue := s.lastTokenMayEndValue, prevChar := s.prevChar,
        tokenStart := 47, backslashMode := false, withinBrackets := false,
        tokenStartIndex := (s.index : Int), seenADot := s.seenADot }
      (by (try dsimp only); omega)
    (try dsimp only at htok herr2)
    refine ⟨?_, ?_⟩
    · rw [htok]
    · rw [herr2]
      rw [herr]
      simp

/-- Witness for C3 (amended): on `a/=b` positioned at the slash with the
may-end-value flag set, the division branch emits the two-byte `/=`
operator; on `/a/b` with the flag clear, the regex branch emits the
three-byte regex `/a/` with no error. -/
theorem C3_amended_slash_witness :
    (NextToken lookup0 { Lex [97, 47, 61, 98] emptyState with
        index := 1
        lastTokenMayEndValue := true }).1 =
      (TokenType.kOperator, (1, 2)) ∧
    (NextToken lookup0 (Lex [47, 97, 47, 98] emptyState)).1 =
      (TokenType.kRegex, (0, 3)) ∧
    ((NextToken lookup0 (Lex [47, 97, 47, 98] emptyState)).2).error = false := by
  refine ⟨?_, ?_, ?_⟩
  · have h := (C3_amended_slash lookup0
      { Lex [97, 47, 61, 98] emptyState with
        index := 1
        lastTokenMayEndValue := true }
      (by decide) (by decide) (by decide) (by decide) (by decide) (by decide)
      (by decide)).1 (by decide)
    rw [h.1]
    decide
  · have h := (C3_amended_slash lookup0 (Lex [47, 97, 47, 98] emptyState)
      (by decide) (by decide) (by decide) (by decide) (by decide) (by decide)
      (by decide)).2 (by decide)
    rw [h.1]
    decide
  · have h := (C3_amended_slash lookup0 (Lex [47, 97, 47, 98] emptyState)
      (by decide) (by decide) (by decide) (by decide) (by decide) (by decide)
      (by decide)).2 (by decide)
    rw [h.2]
    decide

/-- Reference scanner for a string literal body, written from the spec:
scan bytes after the opening quote `q`; a backslash escapes the next byte;
an unescaped occurrence of `q` terminates.  Returns how many bytes were
scanned before the terminator and whether a closing quote was found. -/
def stringScanSpec (q : Nat) : Bool → List Nat → Nat × Bool
  | _, [] => (0, false)
  | true, _ :: rest =>
    let r := stringScanSpec q false rest
    (r.1 + 1, r.2)
  | false, b :: rest =>
    if b = 92 then
      let r := stringScanSpec q true rest
      (r.1 + 1, r.2)
    else if b = q then (0, true)
    else
      let r := stringScanSpec q false rest
      (r.1 + 1, r.2)

lemma stringScanSpec_le_length : ∀ (l : List Nat) (q : Nat) (e : Bool),
    (stringScanSpec q e l).1 ≤ l.length ∧
    ((stringScanSpec q e l).2 = false ↔ (stringScanSpec q e l).1 = l.length) := by
  intro l
  induction l with
  | nil => intro q e; cases e <;> simp [stringScanSpec]
  | cons b rest ih =>
    intro q e
    simp only [List.length_cons]
    cases e
    · simp only [stringScanSpec]
      by_cases h92 : b = 92
      · rw [if_pos h92]
        have := ih q true
        (try dsimp only)
        constructor
        · omega
        · rw [this.2]
          omega
      · rw [if_neg h92]
        by_cases hq : b = q
        · rw [if_pos hq]
          (try dsimp only)
          constructor
          · omega
          · constructor
            · intro hcontra
              exact absurd hcontra (by simp)
            · intro hcontra
              have := (ih q false).1
              omega
        · rw [if_neg hq]
          have := ih q false
          (try dsimp only)
          constructor
          · omega
          · rw [this.2]
            omega
    · simp only [stringScanSpec]
      have := ih q false
      (try dsimp only)
      constructor
      · omega
      · rw [this.2]
        omega

/-- The `InString` consume loop agrees with the reference string scanner,
and never touches the error flag. -/
lemma inString_loop_spec (input : List Nat) :
    ∀ fuel s p i, input.length - p ≤ fuel → p ≤ input.length →
      (consumeLoopAux InString input fuel s p i).2 =
        p + (stringScanSpec s.tokenStart s.backslashMode (input.drop p)).1 ∧
      ((consumeLoopAux InString input fuel s p i).1).error = s.error := by
  intro fuel
  induction fuel with
  | zero =>
    intro s p i hf hp
    have hplen : input.length ≤ p := by omega
    rw [List.drop_eq_nil_of_le hplen]
    cases hb : s.backslashMode <;> simp [consumeLoopAux, stringScanSpec]
  | succ n ih =>
    intro s p i hf hp
    by_cases hplt : p < input.length
    · rw [drop_getD_cons input p hplt]
      simp only [consumeLoopAux, if_pos hplt]
      by_cases hbs : s.backslashMode
      · have hpred : InString s (byteAt input p) i =
            (true, { s with backslashMode := false }) := by
          simp [InString, ProcessBackslash, hbs]
        rw [hpred, ite_pred_true, hbs]
        simp only [stringScanSpec]
        rw [(ih _ (p + 1) (i + 1) (by omega) (by omega)).1,
          (ih _ (p + 1) (i + 1) (by omega) (by omega)).2]
        (try dsimp only)
        exact ⟨by omega, rfl⟩
      · have hbs2 : s.backslashMode = false := by
          cases hb : s.backslashMode
          · rfl
          · exact absurd hb hbs
        by_cases h92 : byteAt input p = 92
        · have hpred : InString s (byteAt input p) i =
              (true, { s with backslashMode := true }) := by
            simp [InString, ProcessBackslash, hbs2, h92]
          rw [hpred, ite_pred_true, hbs2]
          simp only [stringScanSpec]
          rw [if_pos h92]
          rw [(ih _ (p + 1) (i + 1) (by omega) (by omega)).1,
            (ih _ (p + 1) (i + 1) (by omega) (by omega)).2]
          (try dsimp only)
          exact ⟨by omega, rfl⟩
        · by_cases hq : byteAt input p = s.tokenStart
          · have hpred : InString s (byteAt input p) i = (false, s) := by
              simp [InString, ProcessBackslash, hbs2, h92]
              rw [hq]
            rw [hpred, ite_pred_false, hbs2]
            simp only [stringScanSpec]
            rw [if_neg h92, if_pos hq]
            (try dsimp only)
            exact ⟨by omega, by trivial⟩
          · have hpred : InString s (byteAt input p) i = (true, s) := by
              simp [InString, ProcessBackslash, hbs2, h92]
              intro hcontra
              exact absurd hcontra.symm hq
            rw [hpred, ite_pred_true, hbs2]
            simp only [stringScanSpec]
            rw [if_neg h92, if_neg hq]
            rw [(ih _ (p + 1) (i + 1) (by omega) (by omega)).1,
              (ih _ (p + 1) (i + 1) (by omega) (by omega)).2]
            (try dsimp only)
            exact ⟨by omega, rfl⟩
    · have hplen : input.length ≤ p := by omega
      rw [List.drop_eq_nil_of_le hplen]
      simp only [consumeLoopAux, if_neg hplt]
      cases hb : s.backslashMode <;> simp [stringScanSpec]

/-- What `Consume InString` produces, through the reference string scanner:
the token starts at the opening quote; a found closing quote makes the token
span the body plus both quotes with the error flag untouched; hitting end of
input takes the token to the end of the buffer and sets the error flag. -/
lemma consume_string_spec (t : LexState) (hix : t.index < t.input.length) :
    (Consume InString true false t).2 =
      (t.index,
        if (stringScanSpec t.tokenStart t.backslashMode
            (t.input.drop (t.index + 1))).2 then
          (stringScanSpec t.tokenStart t.backslashMode
            (t.input.drop (t.index + 1))).1 + 2
        else t.input.length - t.index) ∧
    ((Consume InString true false t).1).error =
      (t.error || !(stringScanSpec t.tokenStart t.backslashMode
        (t.input.drop (t.index + 1))).2) := by
  obtain ⟨hl1, hl2⟩ := inString_loop_spec t.input (t.input.length - (t.index + 1))
    { t with prevChar := byteAt t.input t.index } (t.index + 1) 1 (le_refl _)
    (by omega)
  have hlen := stringScanSpec_le_length (t.input.drop (t.index + 1))
    t.tokenStart t.backslashMode
  rw [List.length_drop] at hlen
  (try dsimp only at hl1 hl2)
  simp only [Consume, consumeLoop]
  rcases hsc : (stringScanSpec t.tokenStart t.backslashMode
      (t.input.drop (t.index + 1))).2 with _ | _
  · have hn : (stringScanSpec t.tokenStart t.backslashMode
        (t.input.drop (t.index + 1))).1 = t.input.length - (t.index + 1) :=
      hlen.2.mp hsc
    rw [if_pos (by omega)]
    refine ⟨?_, ?_⟩
    · dsimp only
      simp only [Prod.mk.injEq]
      refine ⟨trivial, ?_⟩
      rw [hl1]
      have harith : t.index + 1 + (stringScanSpec t.tokenStart t.backslashMode
          (t.input.drop (t.index + 1))).1 - t.index = t.input.length - t.index := by
        omega
      exact harith
    · dsimp only
      rw [hl2]
  · have hne : (stringScanSpec t.tokenStart t.backslashMode
        (t.input.drop (t.index + 1))).1 ≠ t.input.length - (t.index + 1) := by
      intro hc
      have := hlen.2.mpr hc
      rw [hsc] at this
      exact Bool.noConfusion this
    rw [if_neg (by omega)]
    refine ⟨?_, ?_⟩
    · dsimp only
      simp only [Prod.mk.injEq, if_true]
      refine ⟨trivial, ?_⟩
      rw [hl1]
      have harith2 : t.index + 1 + (stringScanSpec t.tokenStart t.backslashMode
          (t.input.drop (t.index + 1))).1 - t.index + 1 =
          (stringScanSpec t.tokenStart t.backslashMode
            (t.input.drop (t.index + 1))).1 + 2 := by
        omega
      exact harith2
    · dsimp only
      rw [hl2]
      simp

/-- Reference scanner for a block comment body, written from the spec: scan
until the two-byte terminator `*/`, tracking only the previous byte.
Returns how many bytes were scanned before the closing `/` and whether the
terminator was found. -/
def blockScanSpec (prev : Nat) : List Nat → Nat × Bool
  | [] => (0, false)
  | b :: rest =>
    if prev = 42 ∧ b = 47 then (0, true)
    else
      let r := blockScanSpec b rest
      (r.1 + 1, r.2)

lemma blockScanSpec_le_length : ∀ (l : List Nat) (prev : Nat),
    (blockScanSpec prev l).1 ≤ l.length ∧
    ((blockScanSpec prev l).2 = false ↔ (blockScanSpec prev l).1 = l.length) := by
  intro l
  induction l with
  | nil => intro prev; simp [blockScanSpec]
  | cons b rest ih =>
    intro prev
    simp only [List.length_cons, blockScanSpec]
    by_cases hterm : prev = 42 ∧ b = 47
    · rw [if_pos hterm]
      (try dsimp only)
      constructor
      · omega
      · constructor
        · intro hcontra
          exact absurd hcontra (by simp)
        · intro hcontra
          have := (ih b).1
          omega
    · rw [if_neg hterm]
      have := ih b
      (try dsimp only)
      constructor
      · omega
      · rw [this.2]
        omega

/-- The `InBlockComment` consume loop agrees with the reference block-comment
scanner, and never touches the error flag. -/
lemma inBlock_loop_spec (input : List Nat) :
    ∀ fuel s p i, input.length - p ≤ fuel → p ≤ input.length →
      (consumeLoopAux InBlockComment input fuel s p i).2 =
        p + (blockScanSpec s.prevChar (input.drop p)).1 ∧
      ((consumeLoopAux InBlockComment input fuel s p i).1).error = s.error := by
  intro fuel
  induction fuel with
  | zero =>
    intro s p i hf hp
    have hplen : input.length ≤ p := by omega
    rw [List.drop_eq_nil_of_le hplen]
    simp [consumeLoopAux, blockScanSpec]
  | succ n ih =>
    intro s p i hf hp
    by_cases hplt : p < input.length
    · rw [drop_getD_cons input p hplt]
      simp only [consumeLoopAux, if_pos hplt]
      by_cases hterm : s.prevChar = 42 ∧ byteAt input p = 47
      · have hpred : InBlockComment s (byteAt input p) i = (false, s) := by
          simp [InBlockComment, hterm]
        rw [hpred, ite_pred_false]
        simp only [blockScanSpec]
        rw [if_pos hterm]
        (try dsimp only)
        exact ⟨by omega, by trivial⟩
      · have hpred : InBlockComment s (byteAt input p) i = (true, s) := by
          simp only [InBlockComment, Prod.mk.injEq]
          constructor
          · rw [Bool.not_eq_eq_eq_not, Bool.not_true, decide_eq_false hterm]
          · trivial
        rw [hpred, ite_pred_true]
        simp only [blockScanSpec]
        rw [if_neg hterm]
        rw [(ih _ (p + 1) (i + 1) (by omega) (by omega)).1,
          (ih _ (p + 1) (i + 1) (by omega) (by omega)).2]
        (try dsimp only)
        exact ⟨by omega, rfl⟩
    · have hplen : input.length ≤ p := by omega
      rw [List.drop_eq_nil_of_le hplen]
      simp only [consumeLoopAux, if_neg hplt]
      simp [blockScanSpec]

/-- What `Consume InBlockComment` produces, through the reference scanner:
a found `*/` terminator makes the token span up to and including it with the
error flag untouched; hitting end of input takes the token to the end of the
buffer and sets the error flag. -/
lemma consume_block_spec (t : LexState) (hix : t.index < t.input.length) :
    (Consume InBlockComment true false t).2 =
      (t.index,
        if (blockScanSpec (byteAt t.input t.index)
            (t.input.drop (t.index + 1))).2 then
          (blockScanSpec (byteAt t.input t.index)
            (t.input.drop (t.index + 1))).1 + 2
        else t.input.length - t.index) ∧
    ((Consume InBlockComment true false t).1).error =
      (t.error || !(blockScanSpec (byteAt t.input t.index)
        (t.input.drop (t.index + 1))).2) := by
  obtain ⟨hl1, hl2⟩ := inBlock_loop_spec t.input (t.input.length - (t.index + 1))
    { t with prevChar := byteAt t.input t.index } (t.index + 1) 1 (le_refl _)
    (by omega)
  have hlen := blockScanSpec_le_length (t.input.drop (t.index + 1))
    (byteAt t.input t.index)
  rw [List.length_drop] at hlen
  (try dsimp only at hl1 hl2)
  simp only [Consume, consumeLoop]
  rcases hsc : (blockScanSpec (byteAt t.input t.index)
      (t.input.drop (t.index + 1))).2 with _ | _
  · have hn : (blockScanSpec (byteAt t.input t.index)
        (t.input.drop (t.index + 1))).1 = t.input.length - (t.index + 1) :=
      hlen.2.mp hsc
    rw [if_pos (by omega)]
    refine ⟨?_, ?_⟩
    · dsimp only
      simp only [Prod.mk.injEq]
      refine ⟨trivial, ?_⟩
      rw [hl1]
      have harith : t.index + 1 + (blockScanSpec (byteAt t.input t.index)
          (t.input.drop (t.index + 1))).1 - t.index = t.input.length - t.index := by
        omega
      exact harith
    · dsimp only
      rw [hl2]
  · have hne : (blockScanSpec (byteAt t.input t.index)
        (t.input.drop (t.index + 1))).1 ≠ t.input.length - (t.index + 1) := by
      intro hc
      have := hlen.2.mpr hc
      rw [hsc] at this
      exact Bool.noConfusion this
    rw [if_neg (by omega)]
    refine ⟨?_, ?_⟩
    · dsimp only
      simp only [Prod.mk.injEq, if_true]
      refine ⟨trivial, ?_⟩
      rw [hl1]
      have harith2 : t.index + 1 + (blockScanSpec (byteAt t.input t.index)
          (t.input.drop (t.index + 1))).1 - t.index + 1 =
          (blockScanSpec (byteAt t.input t.index)
            (t.input.drop (t.index + 1))).1 + 2 := by
        omega
      exact harith2
    · dsimp only
      rw [hl2]
      simp

/-- Dispatch of `NextToken` on a quote byte: the string-literal branch runs,
and afterwards the may-end-value flag is set. -/
lemma nextToken_string_dispatch (lookup : KeywordLookup) (s : LexState)
    (herr : s.error = false) (hix : s.index < s.input.length)
    (hch : byteAt s.input s.index = 34 ∨ byteAt s.input s.index = 39) :
    NextToken lookup s =
      ((TokenType.kStringLiteral,
        (Consume InString true false
          { s with
              tokenStart := byteAt s.input s.index
              tokenStartIndex := (s.index : Int) }).2),
       { (Consume InString true false
          { s with
              tokenStart := byteAt s.input s.index
              tokenStartIndex := (s.index : Int) }).1 with
         lastTokenMayEndValue := true }) := by
  rcases hch with h | h <;>
  · simp only [NextToken]
    rw [if_neg (by rw [herr]; simp only [Bool.false_eq_true, false_or, not_le]; omega)]
    rw [h]
    rw [if_neg (by simp [IsSpace])]
    rw [if_neg (by simp [IsLineSeparator])]
    rw [if_neg (by simp [IsNumber])]
    rw [if_neg (by decide)]
    rw [if_pos (by decide)]
    simp [IsNumber]

/-- C4: (a) once the sticky error flag is set or the buffer is exhausted,
`NextToken` returns the end-of-input marker immediately and leaves the state
untouched; (b) a string literal with no unescaped closing quote before end
of input is emitted as a truncated string token with the error flag set;
(c) a block comment with no `*/` terminator is emitted as a truncated
comment token with the error flag set; (d) a regex literal that the
reference scan does not close with an unescaped `/` — because the input
ran out or an unescaped newline aborted it — is emitted as a regex token
with the error flag set. -/
theorem C4_sticky_error (lookup : KeywordLookup) (s : LexState) :
    (s.error = true ∨ s.input.length ≤ s.index →
      NextToken lookup s = ((TokenType.kEndOfInput, (s.index, 0)), s)) ∧
    (s.error = false → s.index < s.input.length →
     (byteAt s.input s.index = 34 ∨ byteAt s.input s.index = 39) →
     (stringScanSpec (byteAt s.input s.index) s.backslashMode
        (s.input.drop (s.index + 1))).2 = false →
      (NextToken lookup s).1.1 = TokenType.kStringLiteral ∧
      ((NextToken lookup s).2).error = true) ∧
    (s.error = false → s.index < s.input.length →
     byteAt s.input s.index = 47 → s.index + 1 < s.input.length →
     byteAt s.input (s.index + 1) = 42 →
     (blockScanSpec 47 (s.input.drop (s.index + 1))).2 = false →
      (NextToken lookup s).1.1 = TokenType.kComment ∧
      ((NextToken lookup s).2).error = true) ∧
    (s.error = false → s.backslashMode = false →
     s.lastTokenMayEndValue = false → s.index < s.input.length →
     byteAt s.input s.index = 47 → s.index + 1 < s.input.length →
     byteAt s.input (s.index + 1) ≠ 47 → byteAt s.input (s.index + 1) ≠ 42 →
     (regexScanSpec false false (s.input.drop (s.index + 1))).2 ≠ some true →
      (NextToken lookup s).1.1 = TokenType.kRegex ∧
      ((NextToken lookup s).2).error = true) := by
  refine ⟨?_, ?_, ?_, ?_⟩
  · intro h
    simp only [NextToken]
    rw [if_pos h]
  · intro herr hix hch hun
    rw [nextToken_string_dispatch lookup s herr hix hch]
    obtain ⟨htok, herr2⟩ := consume_string_spec
      { s with
          tokenStart := byteAt s.input s.index
          tokenStartIndex := (s.index : Int) }
      (by (try dsimp only); omega)
    (try dsimp only at htok herr2)
    refine ⟨rfl, ?_⟩
    (try dsimp only)
    rw [herr2, herr, hun]
    rfl
  · intro herr hix hch hnext h42 hun
    rw [nextToken_slash_dispatch lookup s herr hix hch]
    simp only [ConsumeSlash]
    rw [if_pos (by (try dsimp only); omega)]
    rw [if_neg (by (try dsimp only); rw [h42]; decide)]
    rw [if_pos (by (try dsimp only); exact h42)]
    obtain ⟨htok, herr2⟩ := consume_block_spec
      { s with
          tokenStart := 47
          tokenStartIndex := (s.index : Int) }
      (by (try dsimp only); omega)
    (try dsimp only at htok herr2)
    rw [hch] at herr2
    refine ⟨rfl, ?_⟩
    (try dsimp only)
    rw [herr2, herr, hun]
    rfl
  · intro herr hbs hflag hix hch hnext h1 h2 hun
    rw [nextToken_slash_dispatch lookup s herr hix hch]
    simp only [ConsumeSlash]
    rw [if_pos (by (try dsimp only); omega)]
    rw [if_neg (by (try dsimp only); exact h1)]
    rw [if_neg (by (try dsimp only); exact h2)]
    rw [if_neg (by (try dsimp only); rw [hflag]; exact Bool.false_ne_true)]
    (try dsimp only)
    rw [hbs]
    obtain ⟨htok, herr2⟩ := consume_regex_spec
      { input := s.input, index := s.index, error := s.error,
        lastTokenMayEndValue := s.lastTokenMayEndValue, prevChar := s.prevChar,
        tokenStart := 47, backslashMode := false, withinBrackets := false,
        tokenStartIndex := (s.index : Int), seenADot := s.seenADot }
      (by (try dsimp only); omega)
    (try dsimp only at htok herr2)
    refine ⟨rfl, ?_⟩
    rw [herr2, herr]
    simp only [Bool.false_or]
    exact decide_eq_true hun

/-- Witness for C4: a state with the error flag set returns the end-of-input
marker unchanged; the unterminated string `"ab`, the unterminated block
comment `/*a`, and the newline-aborted regex `/a\nb` each emit their
truncated token kind with the error flag set. -/
theorem C4_sticky_error_witness :
    NextToken lookup0 { Lex [97] emptyState with error := true } =
      ((TokenType.kEndOfInput, (0, 0)),
        { Lex [97] emptyState with error := true }) ∧
    (NextToken lookup0 (Lex [34, 97, 98] emptyState)).1.1 =
      TokenType.kStringLiteral ∧
    ((NextToken lookup0 (Lex [34, 97, 98] emptyState)).2).error = true ∧
    (NextToken lookup0 (Lex [47, 42, 97] emptyState)).1.1 =
      TokenType.kComment ∧
    ((NextToken lookup0 (Lex [47, 42, 97] emptyState)).2).error = true ∧
    (NextToken lookup0 (Lex [47, 97, 10, 98] emptyState)).1.1 =
      TokenType.kRegex ∧
    ((NextToken lookup0 (Lex [47, 97, 10, 98] emptyState)).2).error = true := by
  refine ⟨?_, ?_, ?_, ?_, ?_, ?_, ?_⟩
  · exact (C4_sticky_error lookup0
      { Lex [97] emptyState with error := true }).1 (by decide)
  · exact ((C4_sticky_error lookup0 (Lex [34, 97, 98] emptyState)).2.1
      (by decide) (by decide) (by decide) (by decide)).1
  · exact ((C4_sticky_error lookup0 (Lex [34, 97, 98] emptyState)).2.1
      (by decide) (by decide) (by decide) (by decide)).2
  · exact ((C4_sticky_error lookup0 (Lex [47, 42, 97] emptyState)).2.2.1
      (by decide) (by decide) (by decide) (by decide) (by decide) (by decide)).1
  · exact ((C4_sticky_error lookup0 (Lex [47, 42, 97] emptyState)).2.2.1
      (by decide) (by decide) (by decide) (by decide) (by decide) (by decide)).2
  · exact ((C4_sticky_error lookup0 (Lex [47, 97, 10, 98] emptyState)).2.2.2
      (by decide) (by decide) (by decide) (by decide) (by decide) (by decide)
      (by decide) (by decide) (by decide)).1
  · exact ((C4_sticky_error lookup0 (Lex [47, 97, 10, 98] emptyState)).2.2.2
      (by decide) (by decide) (by decide) (by decide) (by decide) (by decide)
      (by decide) (by decide) (by decide)).2

end JsLexerModel

namespace ResourceTagScannerModel

/-- An attribute produced by a firing rule was selected by the inner
`find?` with a predicate requiring no decoding error. -/
lemma ruleFires_no_decoding_error (e : HtmlElement) (r : CustomAttributeRule)
    (a : Attribute) (h : ruleFires e r = some a) : a.decodingError = false := by
  unfold ruleFires at h
  by_cases hcase : StringCaseEqual e.nameStr r.element = true
  · rw [if_pos hcase] at h
    have := List.find?_some h
    rw [Bool.and_eq_true] at this
    have hne := this.2
    rw [Bool.not_eq_eq_eq_not, Bool.not_true] at hne
    exact hne
  · rw [if_neg hcase] at h
    exact Option.noConfusion h

/-- Soundness of the fallback loop: a found pair consists of an attribute
with no decoding error and the category of one of the supplied rules. -/
lemma fallbackScan_sound (e : HtmlElement) :
    ∀ (rules : List CustomAttributeRule) (a : Attribute) (c : Category),
      fallbackScan e rules = some (a, c) →
      a.decodingError = false ∧ ∃ r ∈ rules, r.category = c := by
  intro rules
  induction rules with
  | nil =>
    intro a c h
    simp [fallbackScan] at h
  | cons r rs ih =>
    intro a c h
    unfold fallbackScan at h
    rw [List.findSome?_cons] at h
    cases hfire : ruleFires e r with
    | some a0 =>
      rw [hfire] at h
      simp only [Option.map_some'] at h
      rcases h with h
      have ha : a0 = a ∧ r.category = c := by
        have := Option.some.inj h
        exact ⟨congrArg Prod.fst this, congrArg Prod.snd this⟩
      refine ⟨?_, ⟨r, List.mem_cons_self r rs, ha.2⟩⟩
      rw [← ha.1]
      exact ruleFires_no_decoding_error e r a0 hfire
    | none =>
      rw [hfire] at h
      simp only [Option.map_none'] at h
      obtain ⟨hde, rr, hmem, hcat⟩ := ih a c h
      exact ⟨hde, rr, List.mem_cons_of_mem r hmem, hcat⟩

/-- C5 (counterexample): a custom rule carrying the undefined category fires
through the fallback's early return, which bypasses the final validity
gate: on `<div data-src="x">` with the rule `{div, data-src, kUndefined}`,
`ScanElement` returns a non-null attribute together with the undefined
category — refuting the claim as stated. -/
theorem C5_counterexample :
    ScanElement
      ⟨TagKeyword.kOther, [100, 105, 118],
        [⟨[100, 97, 116, 97, 45, 115, 114, 99], some [120], false⟩]⟩
      (some [⟨[100, 105, 118], [100, 97, 116, 97, 45, 115, 114, 99],
        Category.kUndefined⟩]) =
      (some ⟨[100, 97, 116, 97, 45, 115, 114, 99], some [120], false⟩,
        Category.kUndefined) := by
  decide

/-- C5 (amended): provided every supplied custom rule carries a category
other than undefined, `ScanElement` never returns a tainted result: it is
either the no-match pair, or a present attribute without decoding error
together with a category that is not undefined. -/
theorem C5_amended_gate (e : HtmlElement)
    (driver : Option (List CustomAttributeRule))
    (hrules : ∀ rules, driver = some rules →
      ∀ r ∈ rules, r.category ≠ Category.kUndefined) :
    ScanElement e driver = (none, Category.kUndefined) ∨
    ∃ a, (ScanElement e driver).1 = some a ∧ a.decodingError = false ∧
      (ScanElement e driver).2 ≠ Category.kUndefined := by
  have hgate : ∀ (res : Option Attribute × Category),
      res = (if IsAttributeInvalid (builtinScan e).1 = true ∨
          (builtinScan e).2 = Category.kUndefined then
          ((none : Option Attribute), Category.kUndefined)
        else ((builtinScan e).1, (builtinScan e).2)) →
      res = ((none : Option Attribute), Category.kUndefined) ∨
      ∃ a, res.1 = some a ∧ a.decodingError = false ∧
        res.2 ≠ Category.kUndefined := by
    intro res hres
    by_cases h : IsAttributeInvalid (builtinScan e).1 = true ∨
        (builtinScan e).2 = Category.kUndefined
    · rw [if_pos h] at hres
      left
      exact hres
    · rw [if_neg h] at hres
      right
      push_neg at h
      cases hb : (builtinScan e).1 with
      | none =>
        exfalso
        apply h.1
        rw [hb]
        rfl
      | some a =>
        refine ⟨a, ?_, ?_, ?_⟩
        · rw [hres]
          dsimp only
          exact hb
        · have h1 := h.1
          rw [hb] at h1
          simpa [IsAttributeInvalid] using h1
        · rw [hres]
          exact h.2
  simp only [ScanElement]
  by_cases hempty : e.attributes.isEmpty
  · rw [if_pos hempty]
    left
    rfl
  · rw [if_neg hempty]
    rcases driver with _ | rules
    · by_cases hinv : IsAttributeInvalid (builtinScan e).1 = true
      · rw [if_pos hinv]
        exact hgate _ rfl
      · rw [if_neg hinv]
        exact hgate _ rfl
    · by_cases hinv : IsAttributeInvalid (builtinScan e).1 = true
      · rw [if_pos hinv]
        (try dsimp only)
        cases hfb : fallbackScan e rules with
        | none =>
          (try dsimp only)
          exact hgate _ rfl
        | some ac =>
          (try dsimp only)
          right
          obtain ⟨hde, r, hmem, hcat⟩ :=
            fallbackScan_sound e rules ac.1 ac.2 hfb
          refine ⟨ac.1, rfl, hde, ?_⟩
          rw [← hcat]
          exact hrules rules rfl r hmem
      · rw [if_neg hinv]
        exact hgate _ rfl

/-- Witness for C5 (amended): with the single rule `{div, data-src, kImage}`
(no undefined category) on `<div data-src="x">`, the amended gate property
holds, and indeed the scan returns the `data-src` attribute with category
image. -/
theorem C5_amended_gate_witness :
    (ScanElement
        ⟨TagKeyword.kOther, [100, 105, 118],
          [⟨[100, 97, 116, 97, 45, 115, 114, 99], some [120], false⟩]⟩
        (some [⟨[100, 105, 118], [100, 97, 116, 97, 45, 115, 114, 99],
          Category.kImage⟩]) =
      (none, Category.kUndefined) ∨
    ∃ a, (ScanElement
        ⟨TagKeyword.kOther, [100, 105, 118],
          [⟨[100, 97, 116, 97, 45, 115, 114, 99], some [120], false⟩]⟩
        (some [⟨[100, 105, 118], [100, 97, 116, 97, 45, 115, 114, 99],
          Category.kImage⟩])).1 = some a ∧ a.decodingError = false ∧
      (ScanElement
        ⟨TagKeyword.kOther, [100, 105, 118],
          [⟨[100, 97, 116, 97, 45, 115, 114, 99], some [120], false⟩]⟩
        (some [⟨[100, 105, 118], [100, 97, 116, 97, 45, 115, 114, 99],
          Category.kImage⟩])).2 ≠ Category.kUndefined) ∧
    ScanElement
      ⟨TagKeyword.kOther, [100, 105, 118],
        [⟨[100, 97, 116, 97, 45, 115, 114, 99], some [120], false⟩]⟩
      (some [⟨[100, 105, 118], [100, 97, 116, 97, 45, 115, 114, 99],
        Category.kImage⟩]) =
      (some ⟨[100, 97, 116, 97, 45, 115, 114, 99], some [120], false⟩,
        Category.kImage) := by
  constructor
  · exact C5_amended_gate
      ⟨TagKeyword.kOther, [100, 105, 118],
        [⟨[100, 97, 116, 97, 45, 115, 114, 99], some [120], false⟩]⟩
      (some [⟨[100, 105, 118], [100, 97, 116, 97, 45, 115, 114, 99],
        Category.kImage⟩])
      (by intro rules hr r hmem
          rcases Option.some.inj hr with rfl
          rcases List.mem_singleton.mp hmem with rfl
          decide)
  · decide

/-- `relScan` never produces the undefined category from a defined start. -/
lemma relScan_ne_undefined : ∀ (l : List (List Nat)) (c : Category),
    c ≠ Category.kUndefined → relScan l c ≠ Category.kUndefined := by
  intro l
  induction l with
  | nil => intro c hc; exact hc
  | cons v rest ih =>
    intro c hc
    simp only [relScan]
    by_cases hicon : isIconToken v = true
    · rw [if_pos hicon]
      intro hcontra
      exact Category.noConfusion hcontra
    · rw [if_neg hicon]
      by_cases hpre : isPrefetchToken v = true
      · rw [if_pos hpre]
        exact ih Category.kPrefetch (fun hcontra => Category.noConfusion hcontra)
      · rw [if_neg hpre]
        exact ih c hc

/-- Without icon tokens, `relScan` keeps the prefetch category. -/
lemma relScan_prefetch_stable : ∀ (l : List (List Nat)),
    (∀ v ∈ l, isIconToken v = false) →
    relScan l Category.kPrefetch = Category.kPrefetch := by
  intro l
  induction l with
  | nil => intro _; rfl
  | cons v rest ih =>
    intro hno
    simp only [relScan]
    rw [if_neg (by rw [hno v (List.mem_cons_self v rest)]; exact Bool.false_ne_true)]
    by_cases hpre : isPrefetchToken v = true
    · rw [if_pos hpre]
      exact ih fun u hu => hno u (List.mem_cons_of_mem v hu)
    · rw [if_neg hpre]
      exact ih fun u hu => hno u (List.mem_cons_of_mem v hu)

/-- C6: for a link element with a valid `href` and a `rel` attribute whose
decoded value is not a stylesheet value, `ScanElement` returns the `href`
attribute and the category computed by scanning the space-split `rel`
tokens in order (for any driver — the built-in attribute is valid so no
fallback runs); and the token scan satisfies the claimed order semantics:
the first icon-family token wins immediately and post-icon tokens are never
examined (the result is independent of them), a prefetch token only sets
the category without stopping (so any later icon token overrides it), and
a value with neither kind of token leaves the category unchanged. -/
theorem C6_rel_scan (e : HtmlElement) (driver : Option (List CustomAttributeRule))
    (h relAttr : Attribute) (hkw : e.keyword = TagKeyword.kLink)
    (hne : e.attributes.isEmpty = false)
    (hhref : FindAttribute e (bytes "href") = some h)
    (hde : h.decodingError = false)
    (hrel : FindAttribute e (bytes "rel") = some relAttr)
    (hsty : IsStylesheetOrAlternate relAttr.decodedValue = false) :
    ScanElement e driver =
      (some h, relScan (SplitSkipEmpty (relAttr.decodedValue.getD []))
        Category.kHyperlink) ∧
    (∀ (pre post : List (List Nat)) (t : List Nat) (c : Category),
      (∀ v ∈ pre, isIconToken v = false) → isIconToken t = true →
      relScan (pre ++ t :: post) c = Category.kImage) ∧
    (∀ (l : List (List Nat)) (c : Category),
      (∀ v ∈ l, isIconToken v = false) → (∃ v ∈ l, isPrefetchToken v = true) →
      relScan l c = Category.kPrefetch) ∧
    (∀ (l : List (List Nat)) (c : Category),
      (∀ v ∈ l, isIconToken v = false ∧ isPrefetchToken v = false) →
      relScan l c = c) := by
  refine ⟨?_, ?_, ?_, ?_⟩
  · have hb : builtinScan e =
        (some h, relScan (SplitSkipEmpty (relAttr.decodedValue.getD []))
          Category.kHyperlink) := by
      simp only [builtinScan, hkw, hhref, hrel]
      rw [if_neg (by rw [hsty]; exact Bool.false_ne_true)]
    have hinv : IsAttributeInvalid (some h) = false := by
      simp [IsAttributeInvalid, hde]
    simp only [ScanElement]
    rw [if_neg (by rw [hne]; exact Bool.false_ne_true)]
    rw [hb]
    (try dsimp only)
    rw [if_neg (by rw [hinv]; exact Bool.false_ne_true)]
    rcases driver with _ | rules <;>
    · (try dsimp only)
      rw [if_neg (by
        intro hcontra
        rcases hcontra with hcontra | hcontra
        · rw [hinv] at hcontra
          exact Bool.noConfusion hcontra
        · exact relScan_ne_undefined _ Category.kHyperlink
            (fun hk => Category.noConfusion hk) hcontra)]
  · intro pre
    induction pre with
    | nil =>
      intro post t c hno hicon
      simp only [List.nil_append, relScan]
      rw [if_pos hicon]
    | cons u pre1 ih =>
      intro post t c hno hicon
      simp only [List.cons_append, relScan]
      rw [if_neg (by
        rw [hno u (List.mem_cons_self u pre1)]; exact Bool.false_ne_true)]
      by_cases hpre : isPrefetchToken u = true
      · rw [if_pos hpre]
        exact ih post t Category.kPrefetch
          (fun v hv => hno v (List.mem_cons_of_mem u hv)) hicon
      · rw [if_neg hpre]
        exact ih post t c
          (fun v hv => hno v (List.mem_cons_of_mem u hv)) hicon
  · intro l
    induction l with
    | nil =>
      intro c hno hex
      exact absurd hex (by simp)
    | cons u rest ih =>
      intro c hno hex
      simp only [relScan]
      rw [if_neg (by
        rw [hno u (List.mem_cons_self u rest)]; exact Bool.false_ne_true)]
      by_cases hpre : isPrefetchToken u = true
      · rw [if_pos hpre]
        exact relScan_prefetch_stable rest
          fun v hv => hno v (List.mem_cons_of_mem u hv)
      · rw [if_neg hpre]
        apply ih c (fun v hv => hno v (List.mem_cons_of_mem u hv))
        rcases hex with ⟨v, hv, hvp⟩
        rcases List.mem_cons.mp hv with rfl | hv2
        · exact absurd hvp hpre
        · exact ⟨v, hv2, hvp⟩
  · intro l
    induction l with
    | nil => intro c _; rfl
    | cons u rest ih =>
      intro c hno
      simp only [relScan]
      rw [if_neg (by
        rw [(hno u (List.mem_cons_self u rest)).1]; exact Bool.false_ne_true)]
      rw [if_neg (by
        rw [(hno u (List.mem_cons_self u rest)).2]; exact Bool.false_ne_true)]
      exact ih c fun v hv => hno v (List.mem_cons_of_mem u hv)

/-- Witness for C6: `<link href="a" rel="prefetch icon">` is classified as
an image (the icon token overrides the earlier prefetch token), and the
token scan on `[prefetch, icon]` indeed yields the image category. -/
theorem C6_rel_scan_witness :
    ScanElement
      ⟨TagKeyword.kLink, [108, 105, 110, 107],
        [⟨[104, 114, 101, 102], some [97], false⟩,
         ⟨[114, 101, 108],
           some [112, 114, 101, 102, 101, 116, 99, 104, 32, 105, 99, 111, 110],
           false⟩]⟩
      none =
      (some ⟨[104, 114, 101, 102], some [97], false⟩, Category.kImage) ∧
    relScan [[112, 114, 101, 102, 101, 116, 99, 104], [105, 99, 111, 110]]
      Category.kHyperlink = Category.kImage := by
  constructor
  · exact ((C6_rel_scan
      ⟨TagKeyword.kLink, [108, 105, 110, 107],
        [⟨[104, 114, 101, 102], some [97], false⟩,
         ⟨[114, 101, 108],
           some [112, 114, 101, 102, 101, 116, 99, 104, 32, 105, 99, 111, 110],
           false⟩]⟩
      none
      ⟨[104, 114, 101, 102], some [97], false⟩
      ⟨[114, 101, 108],
        some [112, 114, 101, 102, 101, 116, 99, 104, 32, 105, 99, 111, 110],
        false⟩
      (by decide) (by decide) (by decide) (by decide) (by decide)
      (by decide)).1).trans (by decide)
  · exact (C6_rel_scan
      ⟨TagKeyword.kLink, [108, 105, 110, 107],
        [⟨[104, 114, 101, 102], some [97], false⟩,
         ⟨[114, 101, 108],
           some [112, 114, 101, 102, 101, 116, 99, 104, 32, 105, 99, 111, 110],
           false⟩]⟩
      none
      ⟨[104, 114, 101, 102], some [97], false⟩
      ⟨[114, 101, 108],
        some [112, 114, 101, 102, 101, 116, 99, 104, 32, 105, 99, 111, 110],
        false⟩
      (by decide) (by decide) (by decide) (by decide) (by decide)
      (by decide)).2.1
      [[112, 114, 101, 102, 101, 116, 99, 104]] []
      [105, 99, 111, 110] Category.kHyperlink (by decide) (by decide)

/-- The fallback loop returns the first firing rule's pair, regardless of
the rules after it. -/
lemma fallbackScan_first (e : HtmlElement) :
    ∀ (rs1 : List CustomAttributeRule) (r : CustomAttributeRule)
      (rs2 : List CustomAttributeRule) (a : Attribute),
      (∀ r' ∈ rs1, ruleFires e r' = none) → ruleFires e r = some a →
      fallbackScan e (rs1 ++ r :: rs2) = some (a, r.category) := by
  intro rs1
  induction rs1 with
  | nil =>
    intro r rs2 a _ hfire
    unfold fallbackScan
    rw [List.nil_append, List.findSome?_cons, hfire]
    rfl
  | cons r0 rs1tl ih =>
    intro r rs2 a hnone hfire
    unfold fallbackScan
    rw [List.cons_append, List.findSome?_cons,
      hnone r0 (List.mem_cons_self r0 rs1tl)]
    exact ih r rs2 a (fun r' hr' => hnone r' (List.mem_cons_of_mem r0 hr')) hfire

/-- C7: (a) when the built-in attribute is present without decoding error
the supplied custom rules are irrelevant — the fallback never runs; (b)
when it is missing or tainted, the first rule (in list order) that fires
determines the whole result — the attribute it matched and that rule's
category — independently of every later rule; (c) a rule whose element
name matches fires on the first attribute, in declaration order, whose
name matches case-insensitively and has no decoding error, skipping
attributes that fail either test; (d) a rule whose element name does not
match the element fires on nothing. -/
theorem C7_fallback_first_match (e : HtmlElement) :
    (∀ (driver : Option (List CustomAttributeRule)),
      IsAttributeInvalid (builtinScan e).1 = false →
      ScanElement e driver = ScanElement e none) ∧
    (∀ (rs1 : List CustomAttributeRule) (r : CustomAttributeRule)
        (rs2 : List CustomAttributeRule) (a : Attribute),
      e.attributes.isEmpty = false →
      IsAttributeInvalid (builtinScan e).1 = true →
      (∀ r' ∈ rs1, ruleFires e r' = none) → ruleFires e r = some a →
      ScanElement e (some (rs1 ++ r :: rs2)) = (some a, r.category)) ∧
    (∀ (r : CustomAttributeRule) (as1 : List Attribute) (a : Attribute)
        (as2 : List Attribute),
      StringCaseEqual e.nameStr r.element = true →
      e.attributes = as1 ++ a :: as2 →
      (∀ a' ∈ as1,
        (StringCaseEqual a'.name r.attributeName && !a'.decodingError) = false) →
      (StringCaseEqual a.name r.attributeName && !a.decodingError) = true →
      ruleFires e r = some a) ∧
    (∀ (r : CustomAttributeRule),
      StringCaseEqual e.nameStr r.element = false → ruleFires e r = none) := by
  refine ⟨?_, ?_, ?_, ?_⟩
  · intro driver hvalid
    have hv2 : ¬(IsAttributeInvalid (builtinScan e).1 = true) := by
      rw [hvalid]
      exact Bool.false_ne_true
    simp only [ScanElement]
    by_cases hempty : e.attributes.isEmpty = true
    · rw [if_pos hempty, if_pos hempty]
    · rw [if_neg hempty, if_neg hempty, if_neg hv2, if_neg hv2]
  · intro rs1 r rs2 a hne hinv hnone hfire
    simp only [ScanElement]
    rw [if_neg (by rw [hne]; exact Bool.false_ne_true)]
    rw [if_pos hinv]
    (try dsimp only)
    rw [fallbackScan_first e rs1 r rs2 a hnone hfire]
  · intro r as1 a as2 hname hsplit hskip hhit
    unfold ruleFires
    rw [if_pos hname, hsplit]
    clear hsplit
    induction as1 with
    | nil =>
      rw [List.nil_append]
      exact List.find?_cons_of_pos _ hhit
    | cons a0 tl ih =>
      rw [List.cons_append]
      rw [List.find?_cons_of_neg _ (by
        rw [hskip a0 (List.mem_cons_self a0 tl)]
        exact Bool.false_ne_true)]
      exact ih fun a' ha' => hskip a' (List.mem_cons_of_mem a0 ha')
  · intro r hname
    unfold ruleFires
    rw [if_neg (by rw [hname]; exact Bool.false_ne_true)]

/-- Witness for C7: on `<div data-src="x">` the rule `{div, data-src,
image}` fires first and a later rule is ignored; on `<img src="a">` (valid
built-in attribute) supplying rules changes nothing; the firing rule indeed
selects the `data-src` attribute, and a rule for element `span` does not
fire on a `div`. -/
theorem C7_fallback_first_match_witness :
    ScanElement
      ⟨TagKeyword.kOther, [100, 105, 118],
        [⟨[100, 97, 116, 97, 45, 115, 114, 99], some [120], false⟩]⟩
      (some [⟨[100, 105, 118], [100, 97, 116, 97, 45, 115, 114, 99],
          Category.kImage⟩,
        ⟨[100, 105, 118], [100, 97, 116, 97, 45, 115, 114, 99],
          Category.kScript⟩]) =
      (some ⟨[100, 97, 116, 97, 45, 115, 114, 99], some [120], false⟩,
        Category.kImage) ∧
    ScanElement
      ⟨TagKeyword.kImg, [105, 109, 103], [⟨[115, 114, 99], some [97], false⟩]⟩
      (some [⟨[100, 105, 118], [100, 97, 116, 97, 45, 115, 114, 99],
        Category.kImage⟩]) =
      ScanElement
        ⟨TagKeyword.kImg, [105, 109, 103], [⟨[115, 114, 99], some [97], false⟩]⟩
        none ∧
    ruleFires
      ⟨TagKeyword.kOther, [100, 105, 118],
        [⟨[100, 97, 116, 97, 45, 115, 114, 99], some [120], false⟩]⟩
      ⟨[100, 105, 118], [100, 97, 116, 97, 45, 115, 114, 99],
        Category.kImage⟩ =
      some ⟨[100, 97, 116, 97, 45, 115, 114, 99], some [120], false⟩ ∧
    ruleFires
      ⟨TagKeyword.kOther, [100, 105, 118],
        [⟨[100, 97, 116, 97, 45, 115, 114, 99], some [120], false⟩]⟩
      ⟨[115, 112, 97, 110], [100, 97, 116, 97, 45, 115, 114, 99],
        Category.kImage⟩ =
      none := by
  refine ⟨?_, ?_, ?_, ?_⟩
  · exact (C7_fallback_first_match
      ⟨TagKeyword.kOther, [100, 105, 118],
        [⟨[100, 97, 116, 97, 45, 115, 114, 99], some [120], false⟩]⟩).2.1
      []
      ⟨[100, 105, 118], [100, 97, 116, 97, 45, 115, 114, 99], Category.kImage⟩
      [⟨[100, 105, 118], [100, 97, 116, 97, 45, 115, 114, 99],
        Category.kScript⟩]
      ⟨[100, 97, 116, 97, 45, 115, 114, 99], some [120], false⟩
      (by decide) (by decide) (by decide) (by decide)
  · exact (C7_fallback_first_match
      ⟨TagKeyword.kImg, [105, 109, 103],
        [⟨[115, 114, 99], some [97], false⟩]⟩).1
      (some [⟨[100, 105, 118], [100, 97, 116, 97, 45, 115, 114, 99],
        Category.kImage⟩])
      (by decide)
  · exact (C7_fallback_first_match
      ⟨TagKeyword.kOther, [100, 105, 118],
        [⟨[100, 97, 116, 97, 45, 115, 114, 99], some [120], false⟩]⟩).2.2.1
      ⟨[100, 105, 118], [100, 97, 116, 97, 45, 115, 114, 99], Category.kImage⟩
      []
      ⟨[100, 97, 116, 97, 45, 115, 114, 99], some [120], false⟩
      []
      (by decide) (by decide) (by decide) (by decide)
  · exact (C7_fallback_first_match
      ⟨TagKeyword.kOther, [100, 105, 118],
        [⟨[100, 97, 116, 97, 45, 115, 114, 99], some [120], false⟩]⟩).2.2.2
      ⟨[115, 112, 97, 110], [100, 97, 116, 97, 45, 115, 114, 99],
        Category.kImage⟩
      (by decide)

end ResourceTagScannerModel




















